import Mathlib

/-!
# Verification of the xml-compare-web parse-and-diff engine

Shallow embedding of the core library of the repository:

* the tree builder (`src/core/xmlParser.js`, settings-aware revision):
  `validateXmlInput`, `checkForParseErrors`, `extractErrorMessage`,
  `calculateIndex`, `calculateXPath`, `buildTreeFromElement`, and the
  traversal utilities `flattenTree`, `getAllXPaths`, `countNodes`;
* the tree comparator (`src/core/xmlComparer.js`): `compareXml`,
  `findUniqueElements`, `compareCommonElements`, `areNodesIdentical`,
  `areAttributesEqual`, `calculateStats`, `getDiffStatus`.

The DOM produced by the host `DOMParser` is modelled by the inductive
`DomElem` (tag, attributes, direct text-node children, element children);
the `DOMParser` call itself is host-environment code, so `parseXml` takes
it as an oracle `String → DomDocModel`.  JavaScript `Set`s and `Map`s are
modelled as insertion-ordered duplicate-free lists / association lists,
JavaScript `Array.prototype.includes` as list membership, and number-to-
string coercion by the decimal rendering `decRepr`.
-/

namespace XmlCompare

/-- The ASCII part of the JavaScript whitespace class `\s` (also used by
`String.prototype.trim`): space, tab, LF, VT, FF, CR. -/
def isWsJs (c : Char) : Bool :=
  c == ' ' || c == '\t' || c == '\n' || c == '\x0b' || c == '\x0c' || c == '\r'

/-- JavaScript `String.prototype.trim` on a character list: drop leading and
trailing whitespace. -/
def jsTrim (l : List Char) : List Char :=
  ((l.dropWhile isWsJs).reverse.dropWhile isWsJs).reverse

/-- JavaScript `s.trim()`. -/
def jsTrimStr (s : String) : String := ⟨jsTrim s.data⟩

/-- Scanner for `s.replace(/\s+/g, ' ')`: the flag records whether the
previous character belonged to a whitespace run whose replacement space has
already been emitted. -/
def collapseAux : Bool → List Char → List Char
  | _, [] => []
  | prevWs, c :: rest =>
    if isWsJs c then
      if prevWs then collapseAux true rest else ' ' :: collapseAux true rest
    else c :: collapseAux false rest

/-- JavaScript `s.replace(/\s+/g, ' ')` on a character list: every maximal
run of whitespace becomes a single space. -/
def collapseChars (l : List Char) : List Char := collapseAux false l

/-- JavaScript `s.replace(/\s+/g, ' ')`. -/
def collapseWs (s : String) : String := ⟨collapseChars s.data⟩

/-- The ten decimal digit characters. -/
def digitCh : Nat → Char
  | 0 => '0' | 1 => '1' | 2 => '2' | 3 => '3' | 4 => '4'
  | 5 => '5' | 6 => '6' | 7 => '7' | 8 => '8' | 9 => '9'
  | _ => '?'

/-- Big-endian decimal digit characters of `n` (empty for 0); the first
argument is fuel, sufficient whenever `n ≤ fuel`. -/
def decCharsAux : Nat → Nat → List Char
  | 0, _ => []
  | _, 0 => []
  | fuel + 1, n => decCharsAux fuel (n / 10) ++ [digitCh (n % 10)]

/-- Decimal rendering of a natural number, as JavaScript template-literal
interpolation `${n}` produces it. -/
def decRepr (n : Nat) : String :=
  if n = 0 then "0" else ⟨decCharsAux n n⟩

/-- Numeric value of a list of decimal digit characters. -/
def digitsVal (ds : List Char) : Nat :=
  ds.foldl (fun a c => 10 * a + (c.toNat - 48)) 0

/-- JavaScript `parseInt(s, 10)`: skip leading whitespace, optional sign,
then the longest run of decimal digits; `none` models `NaN`. -/
def parseIntJs (s : String) : Option Int :=
  let l := s.data.dropWhile isWsJs
  let signAndRest : Int × List Char :=
    match l with
    | '+' :: r => (1, r)
    | '-' :: r => (-1, r)
    | _ => (1, l)
  let ds := signAndRest.2.takeWhile Char.isDigit
  if ds.isEmpty then none else some (signAndRest.1 * (digitsVal ds : Nat))

/-- The optional XPath-generation settings accepted by `parseXml`
(`elementsArray`, `indexAttribute`, `leafOmit`). -/
structure XPathSettings where
  elementsArray : List String
  indexAttribute : Option String
  leafOmit : Bool

/-- The defaults merged in by `parseXml` when settings are omitted. -/
def defaultSettings : XPathSettings :=
  { elementsArray := [], indexAttribute := none, leafOmit := true }

/-- A DOM element as the builder observes it: tag name, attributes (name
distinct by XML well-formedness), the contents of its direct text-node
children in document order, and its child elements in document order.
The relative interleaving of text and element children is not observed by
the builder, so it is not modelled. -/
inductive DomElem where
  | mk (tagName : String) (attributes : List (String × String))
       (texts : List String) (children : List DomElem)

def DomElem.tagName : DomElem → String
  | .mk t _ _ _ => t

def DomElem.attributes : DomElem → List (String × String)
  | .mk _ a _ _ => a

def DomElem.texts : DomElem → List String
  | .mk _ _ tx _ => tx

def DomElem.children : DomElem → List DomElem
  | .mk _ _ _ c => c

/-- The normalized tree node produced by the builder (`XmlNode` in the
source). -/
inductive XmlNode where
  | mk (tagName : String) (xpath : String) (attributes : List (String × String))
       (textContent : String) (children : List XmlNode)
       (key : String) (siblingIndex : Nat) (siblingTotal : Nat)

def XmlNode.tagName : XmlNode → String
  | .mk t _ _ _ _ _ _ _ => t

def XmlNode.xpath : XmlNode → String
  | .mk _ x _ _ _ _ _ _ => x

def XmlNode.attributes : XmlNode → List (String × String)
  | .mk _ _ a _ _ _ _ _ => a

def XmlNode.textContent : XmlNode → String
  | .mk _ _ _ txt _ _ _ _ => txt

def XmlNode.children : XmlNode → List XmlNode
  | .mk _ _ _ _ c _ _ _ => c

def XmlNode.key : XmlNode → String
  | .mk _ _ _ _ _ k _ _ => k

def XmlNode.siblingIndex : XmlNode → Nat
  | .mk _ _ _ _ _ _ i _ => i

def XmlNode.siblingTotal : XmlNode → Nat
  | .mk _ _ _ _ _ _ _ n => n

/-- `element.getAttribute(name)` / attribute-object indexing: the value of
the named attribute, if present. -/
def jsGetAttr (attrs : List (String × String)) (name : String) : Option String :=
  (attrs.find? (fun kv => kv.1 == name)).map (·.2)

/-- `calculateIndex` from the source: if `indexAttribute` is set (and, being
a JavaScript truthiness test, non-empty) and the element carries it with a
value parsing to an integer `≥ 1`, that value is the index; otherwise the
1-based position `posIdx` among same-tag siblings. -/
def calculateIndex (attrs : List (String × String)) (settings : XPathSettings)
    (posIdx : Nat) : Nat :=
  match settings.indexAttribute with
  | none => posIdx
  | some attrName =>
    if attrName = "" then posIdx
    else
      match jsGetAttr attrs attrName with
      | none => posIdx
      | some v =>
        match parseIntJs v with
        | none => posIdx
        | some n => if 1 ≤ n then n.toNat else posIdx

/-- The path step contributed by one element: the tag, with `[index]`
appended exactly when the resolved index exceeds 1. -/
def stepStr (tag : String) (index : Nat) : String :=
  if index > 1 then tag ++ "[" ++ decRepr index ++ "]" else tag

/-- `calculateXPath` from the source.  For `index > 1` the step is
`tag[index]`; for `index == 1` the source computes `isInElementsArray` and
`shouldOmitForLeaf` but appends no suffix on any branch (the `[1]`-adding
branch is commented out), so the step is the bare tag. -/
def calculateXPath (tag : String) (attrs : List (String × String))
    (parentPath : String) (settings : XPathSettings) (posIdx sibTotal : Nat)
    (isLeaf : Bool) : String :=
  let index := calculateIndex attrs settings posIdx
  let step :=
    if index > 1 then tag ++ "[" ++ decRepr index ++ "]"
    else
      let isInElementsArray := settings.elementsArray.contains tag.toLower
      let shouldOmitForLeaf := settings.leafOmit && isLeaf
      if isInElementsArray || shouldOmitForLeaf || sibTotal == 1 then tag
      else tag
  parentPath ++ "/" ++ step

/-- `extractDirectTextContent`: concatenate the trimmed non-empty direct
text-node contents. -/
def extractDirectTextContent (texts : List String) : String :=
  texts.foldl
    (fun acc t => let tr := jsTrimStr t; if tr = "" then acc else acc ++ tr) ""

/-- `generateComparisonKey`: the tag, plus `[@attr="value"]` for the first
of `id`, `name`, `key` present with a truthy (non-empty) value. -/
def generateComparisonKey (tag : String) (attrs : List (String × String)) : String :=
  let pick := ["id", "name", "key"].find?
    (fun a => match jsGetAttr attrs a with | some v => !(v == "") | none => false)
  match pick with
  | some a =>
    match jsGetAttr attrs a with
    | some v => tag ++ "[@" ++ a ++ "=\x22" ++ v ++ "\x22]"
    | none => tag
  | none => tag

mutual

/-- `buildTreeFromElement`: builds the normalized node for one element.
`posIdx` is the element's 1-based position among its same-tag siblings
(what `siblings.indexOf(element) + 1` computes on the DOM) and `sibTotal`
their count (`findSameSiblings(element).length`); for the root element both
are 1. -/
def buildTreeFromElement : DomElem → String → XPathSettings → Nat → Nat → XmlNode
  | .mk tag attrs texts kids, parentPath, settings, posIdx, sibTotal =>
    let isLeaf := kids.isEmpty
    let xpath := calculateXPath tag attrs parentPath settings posIdx sibTotal isLeaf
    XmlNode.mk tag xpath attrs (extractDirectTextContent texts)
      (buildChildNodes kids [] (kids.map DomElem.tagName) xpath settings)
      (generateComparisonKey tag attrs)
      (calculateIndex attrs settings posIdx) sibTotal
termination_by structural e => e

/-- `buildChildNodes`: recursively build the child elements in document
order.  `seenTags` are the tags of the already-processed earlier siblings
(so `seenTags.count tag + 1` is the 1-based same-tag position) and
`allTags` the tags of all siblings (for the same-tag total). -/
def buildChildNodes : List DomElem → List String → List String → String → XPathSettings → List XmlNode
  | [], _, _, _, _ => []
  | e :: rest, seenTags, allTags, parentXpath, settings =>
    buildTreeFromElement e parentXpath settings
        (seenTags.count e.tagName + 1) (allTags.count e.tagName)
      :: buildChildNodes rest (e.tagName :: seenTags) allTags parentXpath settings
termination_by structural l => l

end

/-- The builder applied to the document element, as `parseXml` invokes it
(empty parent path; the root has itself as only same-tag sibling). -/
def buildRoot (e : DomElem) (settings : XPathSettings) : XmlNode :=
  buildTreeFromElement e "" settings 1 1

/-- The input value handed to `parseXml`: either a string, or any
non-string value (only its `typeof` is observed). -/
inductive XmlInput where
  | str (s : String)
  | nonString

/-- `validateXmlInput`: throws for non-string input, then for input whose
trimmed form is empty; returns the string otherwise. -/
def validateXmlInput : XmlInput → Except String String
  | .nonString => .error "XML input must be a string"
  | .str s =>
    if (jsTrimStr s).length = 0 then .error "XML input cannot be empty"
    else .ok s

/-- The result of the host `DOMParser`: the text of the `<parsererror>`
element when parsing failed, and the document element. -/
structure DomDocModel where
  parserError : Option String
  documentElement : DomElem

/-- `extractErrorMessage`: the `parsererror` text (or a fallback when it is
falsy), whitespace-collapsed and trimmed, truncated to 200 characters with
`"..."` appended when longer. -/
def extractErrorMessage (textContent : String) : String :=
  let message := if textContent = "" then "Unknown parsing error" else textContent
  let message := jsTrimStr (collapseWs message)
  if message.length > 200 then ⟨message.data.take 200⟩ ++ "..." else message

/-- `checkForParseErrors`: throw `Invalid XML: …` when the parsed document
contains a `<parsererror>` element. -/
def checkForParseErrors (xmlDoc : DomDocModel) : Except String Unit :=
  match xmlDoc.parserError with
  | some parseError => .error ("Invalid XML: " ++ extractErrorMessage parseError)
  | none => .ok ()

/-- `parseXml`: validate, parse via the host parser (the oracle
`domParse`), check for parser-reported errors, then build the tree. -/
def parseXml (input : XmlInput) (domParse : String → DomDocModel)
    (settings : XPathSettings) : Except String XmlNode :=
  match validateXmlInput input with
  | .error e => .error e
  | .ok s =>
    let xmlDoc := domParse s
    match checkForParseErrors xmlDoc with
    | .error e => .error e
    | .ok _ => .ok (buildRoot xmlDoc.documentElement settings)

mutual

/-- Depth-first, parent-before-children traversal (`traverseAndCollect`),
returning the visited nodes in order. -/
def allNodes : XmlNode → List XmlNode
  | .mk t x a txt cs k si st => XmlNode.mk t x a txt cs k si st :: allNodesList cs
termination_by structural n => n

def allNodesList : List XmlNode → List XmlNode
  | [] => []
  | c :: rest => allNodes c ++ allNodesList rest
termination_by structural l => l

end

/-- JavaScript `Set.prototype.add`: append unless already present. -/
def setAdd (s : List String) (x : String) : List String :=
  if x ∈ s then s else s ++ [x]

/-- Collect a list into a JavaScript `Set` (insertion-ordered, no
duplicates). -/
def listToSet (l : List String) : List String := l.foldl setAdd []

/-- `getAllXPaths`: the set of all XPaths in a tree. -/
def getAllXPaths (tree : XmlNode) : List String :=
  listToSet ((allNodes tree).map XmlNode.xpath)

/-- `countNodes`: total number of nodes in a tree. -/
def countNodes (tree : XmlNode) : Nat := (allNodes tree).length

/-- JavaScript `Map.prototype.set`: overwrite in place if the key exists,
else append. -/
def mapSet (m : List (String × XmlNode)) (k : String) (v : XmlNode) :
    List (String × XmlNode) :=
  if m.any (fun kv => kv.1 == k) then
    m.map (fun kv => if kv.1 == k then (k, v) else kv)
  else m ++ [(k, v)]

/-- JavaScript `Map.prototype.get`. -/
def mapGet (m : List (String × XmlNode)) (k : String) : Option XmlNode :=
  (m.find? (fun kv => kv.1 == k)).map (·.2)

/-- `flattenTree`: XPath → node map of a tree (later duplicate paths would
overwrite earlier ones). -/
def flattenTree (tree : XmlNode) : List (String × XmlNode) :=
  (allNodes tree).foldl (fun m n => mapSet m n.xpath n) []

/-- `findNodeByXPath`: look a node up by exact path, `none` when absent. -/
def findNodeByXPath (tree : XmlNode) (xpath : String) : Option XmlNode :=
  mapGet (flattenTree tree) xpath

/-- `isTextContentEqual`. -/
def isTextContentEqual (leftText rightText : String) : Bool := leftText == rightText

/-- `Object.keys` of an attribute object.  Attribute objects produced by
the builder have pairwise distinct names (XML well-formedness), so the key
list is the name list. -/
def objKeys (attrs : List (String × String)) : List String := attrs.map (·.1)

/-- `areAttributesEqual`: same number of attributes, and for every key of
the left object the two values coincide (a key missing on the right makes
the comparison `string !== undefined`, hence unequal). -/
def areAttributesEqual (leftAttrs rightAttrs : List (String × String)) : Bool :=
  let leftKeys := objKeys leftAttrs
  let rightKeys := objKeys rightAttrs
  if leftKeys.length != rightKeys.length then false
  else leftKeys.all (fun k => jsGetAttr leftAttrs k == jsGetAttr rightAttrs k)

/-- `areNodesIdentical`: equal direct text content and equal attributes;
children are not consulted. -/
def areNodesIdentical (leftNode rightNode : XmlNode) : Bool :=
  if !isTextContentEqual leftNode.textContent rightNode.textContent then false
  else if !areAttributesEqual leftNode.attributes rightNode.attributes then false
  else true

/-- `findUniqueElements`: the set difference source − target. -/
def findUniqueElements (sourceSet targetSet : List String) : List String :=
  sourceSet.foldl
    (fun unique path => if targetSet.contains path then unique else setAdd unique path)
    []

/-- `compareCommonElements`: classify every path present in both path sets
as matched or different according to `areNodesIdentical` on the two mapped
nodes.  (The lookups always succeed because each map is keyed by exactly
its side's path set; the fallthrough arm is unreachable.) -/
def compareCommonElements (leftPaths rightPaths : List String)
    (leftMap rightMap : List (String × XmlNode)) : List String × List String :=
  leftPaths.foldl
    (fun md xpath =>
      if !(rightPaths.contains xpath) then md
      else
        match mapGet leftMap xpath, mapGet rightMap xpath with
        | some leftNode, some rightNode =>
          if areNodesIdentical leftNode rightNode then (setAdd md.1 xpath, md.2)
          else (md.1, setAdd md.2 xpath)
        | _, _ => md)
    ([], [])

/-- `DiffStats`. -/
structure DiffStats where
  totalLeft : Nat
  totalRight : Nat
  matched : Nat
  leftOnly : Nat
  rightOnly : Nat
  different : Nat

/-- `calculateStats`: the sizes of the two path sets and of the four
category sets. -/
def calculateStats (leftPaths rightPaths matched leftOnly rightOnly different :
    List String) : DiffStats :=
  { totalLeft := leftPaths.length, totalRight := rightPaths.length,
    matched := matched.length, leftOnly := leftOnly.length,
    rightOnly := rightOnly.length, different := different.length }

/-- `DiffResults`. -/
structure DiffResults where
  leftOnly : List String
  rightOnly : List String
  different : List String
  matched : List String
  stats : DiffStats

/-- `compareXml`: the main comparison entry point. -/
def compareXml (leftTree rightTree : XmlNode) : DiffResults :=
  let leftPaths := getAllXPaths leftTree
  let rightPaths := getAllXPaths rightTree
  let leftMap := flattenTree leftTree
  let rightMap := flattenTree rightTree
  let leftOnly := findUniqueElements leftPaths rightPaths
  let rightOnly := findUniqueElements rightPaths leftPaths
  let md := compareCommonElements leftPaths rightPaths leftMap rightMap
  { leftOnly := leftOnly, rightOnly := rightOnly, different := md.2,
    matched := md.1,
    stats := calculateStats leftPaths rightPaths md.1 leftOnly rightOnly md.2 }

/-- `getDiffStatus`: resolve a path to a display status, checking matched,
then different, then the given side's only-set, else neutral. -/
def getDiffStatus (xpath : String) (diffResults : Option DiffResults)
    (side : String) : String :=
  match diffResults with
  | none => "neutral"
  | some results =>
    if results.matched.contains xpath then "matched"
    else if results.different.contains xpath then "different"
    else if side == "left" && results.leftOnly.contains xpath then "extra"
    else if side == "right" && results.rightOnly.contains xpath then "extra"
    else "neutral"

/-- `areTreesIdentical`: no differences in a diff result. -/
def areTreesIdentical (results : DiffResults) : Bool :=
  results.leftOnly.length == 0 && results.rightOnly.length == 0 &&
    results.different.length == 0

/-! ## Auxiliary notions used only in statements and proofs -/

/-- The node-pair test `compareCommonElements` performs at a common path:
identical nodes at `p` in the two flattened maps (`false` when a lookup
fails, which cannot happen for paths of the corresponding trees). -/
def identAt (leftMap rightMap : List (String × XmlNode)) (p : String) : Bool :=
  match mapGet leftMap p, mapGet rightMap p with
  | some leftNode, some rightNode => areNodesIdentical leftNode rightNode
  | _, _ => false

/-- XPaths of all nodes of a tree, in traversal order, duplicates kept. -/
def allXPathsList (tree : XmlNode) : List String :=
  (allNodes tree).map XmlNode.xpath

/-- A tag name free of the two characters the path syntax reserves.  Every
well-formed XML name satisfies this (names contain neither `/` nor `[`). -/
def wfTagB (t : String) : Bool :=
  t.data.all (fun c => !(c == '/') && !(c == '['))

mutual

/-- All tag names in a DOM tree are well-formed XML names in the sense of
`wfTagB`. -/
def wfDomB : DomElem → Bool
  | .mk t _ _ kids => wfTagB t && wfForestB kids
termination_by structural e => e

def wfForestB : List DomElem → Bool
  | [] => true
  | e :: rest => wfDomB e && wfForestB rest
termination_by structural l => l

end

/-- A character list that is either empty or starts with `/` — the shape of
whatever follows one path step inside a longer path. -/
def slashTail (r : List Char) : Prop := r = [] ∨ ∃ r', r = '/' :: r'

/-- Replace a node's children, leaving every other field unchanged (used to
state that node comparison does not consult children). -/
def XmlNode.withChildren : XmlNode → List XmlNode → XmlNode
  | .mk t x a txt _ k si st, cs => .mk t x a txt cs k si st

/-! ### Concrete fixtures (documents from the specification's test bullets) -/

/-- `<item/>`. -/
def itemElem : DomElem := .mk "item" [] [] []

/-- `<root><item/><item/><item/></root>`. -/
def tripleItemDoc : DomElem := .mk "root" [] [] [itemElem, itemElem, itemElem]

/-- `<root><item k="1"/><item k="1"/></root>`. -/
def dupIndexDoc : DomElem :=
  .mk "root" [] [] [.mk "item" [("k", "1")] [] [], .mk "item" [("k", "1")] [] []]

/-- Settings selecting `k` as the index attribute. -/
def idxSettings : XPathSettings :=
  { elementsArray := [], indexAttribute := some "k", leafOmit := true }

/-- `<root k="2"/>`. -/
def rootOverrideDoc : DomElem := .mk "root" [("k", "2")] [] []

/-- `<root><a>1</a><b/></root>`. -/
def sampleLeftDoc : DomElem :=
  .mk "root" [] [] [.mk "a" [] ["1"] [], .mk "b" [] [] []]

/-- `<root><a>2</a><c/></root>`. -/
def sampleRightDoc : DomElem :=
  .mk "root" [] [] [.mk "a" [] ["2"] [], .mk "c" [] [] []]

/-- The left sample tree, built with default settings. -/
def sampleLeftTree : XmlNode := buildRoot sampleLeftDoc defaultSettings

/-- The right sample tree, built with default settings. -/
def sampleRightTree : XmlNode := buildRoot sampleRightDoc defaultSettings

/-- A diff report whose category sets overlap at `/a` (constructible by
hand, never produced by `compareXml`). -/
def overlapReport : DiffResults :=
  { leftOnly := ["/a", "/l"], rightOnly := ["/a", "/r"],
    different := ["/a", "/d"], matched := ["/a"],
    stats := calculateStats [] [] [] [] [] [] }

/-! ## Set and map lemmas -/

theorem contains_iff_mem (l : List String) (a : String) :
    l.contains a = true ↔ a ∈ l := by
  simp [List.contains, List.elem_iff]

theorem mem_setAdd (s : List String) (x a : String) :
    a ∈ setAdd s x ↔ a ∈ s ∨ a = x := by
  unfold setAdd
  split <;> rename_i h
  · constructor
    · exact fun hm => Or.inl hm
    · rintro (hm | rfl) <;> assumption
  · simp

theorem nodup_setAdd (s : List String) (x : String) (h : s.Nodup) :
    (setAdd s x).Nodup := by
  unfold setAdd
  split <;> rename_i hx
  · exact h
  · simpa [List.nodup_append, h] using hx

theorem mem_foldl_setAdd (l : List String) (init : List String) (a : String) :
    a ∈ l.foldl setAdd init ↔ a ∈ init ∨ a ∈ l := by
  induction l generalizing init with
  | nil => simp
  | cons x xs ih =>
    rw [List.foldl_cons, ih, mem_setAdd]
    simp only [List.mem_cons]
    tauto

theorem nodup_foldl_setAdd (l : List String) (init : List String)
    (h : init.Nodup) : (l.foldl setAdd init).Nodup := by
  induction l generalizing init with
  | nil => exact h
  | cons x xs ih => exact ih _ (nodup_setAdd _ _ h)

theorem mem_listToSet (l : List String) (a : String) :
    a ∈ listToSet l ↔ a ∈ l := by
  unfold listToSet
  rw [mem_foldl_setAdd]
  simp

theorem nodup_listToSet (l : List String) : (listToSet l).Nodup :=
  nodup_foldl_setAdd l [] List.nodup_nil

theorem foldl_setAdd_eq_append (l : List String) (init : List String)
    (h : (init ++ l).Nodup) : l.foldl setAdd init = init ++ l := by
  induction l generalizing init with
  | nil => simp
  | cons x xs ih =>
    have hx : x ∉ init := by
      intro hmem
      have := List.disjoint_of_nodup_append h
      exact this hmem (by simp)
    rw [List.foldl_cons]
    have hset : setAdd init x = init ++ [x] := by simp [setAdd, hx]
    rw [hset, ih]
    · simp
    · simpa using h

theorem listToSet_eq_self (l : List String) (h : l.Nodup) : listToSet l = l := by
  unfold listToSet
  rw [foldl_setAdd_eq_append l [] (by simpa using h)]
  simp

theorem mem_getAllXPaths (t : XmlNode) (p : String) :
    p ∈ getAllXPaths t ↔ p ∈ (allNodes t).map XmlNode.xpath := by
  unfold getAllXPaths
  exact mem_listToSet _ _

theorem nodup_getAllXPaths (t : XmlNode) : (getAllXPaths t).Nodup :=
  nodup_listToSet _

theorem mapGet_mapSet_aux (m : List (String × XmlNode)) (k : String) (v : XmlNode)
    (k' : String) :
    ((m.map (fun kv => if kv.1 == k then (k, v) else kv)).find? (fun kv => kv.1 == k')) =
      if k' = k then (m.find? (fun kv => kv.1 == k)).map (fun _ => (k, v))
      else m.find? (fun kv => kv.1 == k') := by
  induction m with
  | nil => split <;> rfl
  | cons kv rest ih =>
    by_cases hk : kv.1 = k <;> by_cases hk' : k' = k
    · subst hk; subst hk'
      simp [List.find?_cons]
    · subst hk
      have h1 : ((kv.1, v).1 == k') = false := by simp; exact fun h => hk' h.symm
      have h2 : (kv.1 == k') = false := by simp; exact fun h => hk' h.symm
      simp only [List.map_cons, beq_self_eq_true, if_true, List.find?_cons, h1, h2,
        cond_false, ih, if_neg hk']
    · subst hk'
      have h1 : (kv.1 == k') = false := by simp [hk]
      simp only [List.map_cons, h1, Bool.false_eq_true, if_false, List.find?_cons,
        cond_false, ih, if_pos rfl]
    · have h1 : (kv.1 == k) = false := by simp [hk]
      by_cases hkk : kv.1 = k'
      · have h2 : (kv.1 == k') = true := by simp [hkk]
        simp only [List.map_cons, h1, Bool.false_eq_true, if_false, List.find?_cons, h2,
          cond_true, if_neg hk']
      · have h2 : (kv.1 == k') = false := by simp [hkk]
        simp only [List.map_cons, h1, Bool.false_eq_true, if_false, List.find?_cons, h2,
          cond_false, ih, if_neg hk']

theorem mapGet_mapSet (m : List (String × XmlNode)) (k : String) (v : XmlNode)
    (k' : String) :
    mapGet (mapSet m k v) k' = if k' = k then some v else mapGet m k' := by
  unfold mapGet mapSet
  split <;> rename_i hany
  · rw [mapGet_mapSet_aux]
    split <;> rename_i hk
    · rcases List.any_eq_true.mp hany with ⟨kv, hmem, hkv⟩
      have hsome : (m.find? (fun kv => kv.1 == k)).isSome :=
        List.find?_isSome.mpr ⟨kv, hmem, hkv⟩
      rcases Option.isSome_iff_exists.mp hsome with ⟨w, hw⟩
      simp [hw]
    · rfl
  · rw [List.find?_append]
    split <;> rename_i hk
    · subst hk
      have hnone : m.find? (fun kv => kv.1 == k') = none :=
        List.find?_eq_none.mpr fun kv hm hkv =>
          hany (List.any_eq_true.mpr ⟨kv, hm, hkv⟩)
      simp [hnone, List.find?_cons]
    · have h1 : ((k, v).1 == k') = false := by simp; exact fun h => hk h.symm
      cases hfind : m.find? (fun kv => kv.1 == k') <;>
        simp [hfind, List.find?_cons, h1]

theorem mapGet_foldl_mapSet (ns : List XmlNode) (init : List (String × XmlNode))
    (p : String) :
    mapGet (ns.foldl (fun m n => mapSet m n.xpath n) init) p =
      match ns.reverse.find? (fun n => n.xpath == p) with
      | some n => some n
      | none => mapGet init p := by
  induction ns generalizing init with
  | nil => simp
  | cons n0 rest ih =>
    rw [List.foldl_cons, ih, List.reverse_cons, List.find?_append]
    cases hr : rest.reverse.find? (fun n => n.xpath == p)
    · cases hp : (n0.xpath == p)
      · have : p ≠ n0.xpath := by
          intro h; rw [h] at hp; simp at hp
        simp [List.find?_cons, hp, mapGet_mapSet, this]
      · have : p = n0.xpath := by
          have := of_decide_eq_true (by simpa [BEq.beq] using hp)
          exact this.symm
        simp [List.find?_cons, hp, mapGet_mapSet, this]
    · simp [hr]

theorem mapGet_flattenTree_eq (t : XmlNode) (p : String) :
    mapGet (flattenTree t) p =
      match (allNodes t).reverse.find? (fun n => n.xpath == p) with
      | some n => some n
      | none => none := by
  unfold flattenTree
  rw [mapGet_foldl_mapSet]
  rfl

theorem mapGet_flattenTree_isSome (t : XmlNode) (p : String) :
    (mapGet (flattenTree t) p).isSome = true ↔ p ∈ getAllXPaths t := by
  rw [mapGet_flattenTree_eq, mem_getAllXPaths]
  cases hf : (allNodes t).reverse.find? (fun n => n.xpath == p)
  · simp only [Option.isSome_none, Bool.false_eq_true, false_iff]
    intro hmem
    rcases List.mem_map.mp hmem with ⟨n, hn, hx⟩
    have : ∀ n ∈ (allNodes t).reverse, ¬ (n.xpath == p) = true :=
      List.find?_eq_none.mp hf
    exact this n (List.mem_reverse.mpr hn) (by simp [hx])
  · rename_i n
    simp only [Option.isSome_some, true_iff]
    have hmem := List.mem_of_find?_eq_some hf
    have hx := List.find?_some hf
    exact List.mem_map.mpr ⟨n, List.mem_reverse.mp hmem, by simpa using hx⟩

theorem mapGet_flattenTree_some (t : XmlNode) (p : String) (n : XmlNode)
    (h : mapGet (flattenTree t) p = some n) : n ∈ allNodes t ∧ n.xpath = p := by
  rw [mapGet_flattenTree_eq] at h
  cases hf : (allNodes t).reverse.find? (fun n => n.xpath == p) <;> rw [hf] at h
  · exact absurd h (by simp)
  · rename_i n'
    cases h
    exact ⟨List.mem_reverse.mp (List.mem_of_find?_eq_some hf),
      by simpa using List.find?_some hf⟩

/-! ## Comparator characterization -/

theorem findUniqueElements_eq_filter (s t : List String) (h : s.Nodup) :
    findUniqueElements s t = s.filter (fun p => !(t.contains p)) := by
  unfold findUniqueElements
  suffices haux : ∀ (l acc : List String), l.Nodup → (∀ p ∈ l, p ∉ acc) →
      (l.foldl (fun unique path =>
        if t.contains path then unique else setAdd unique path) acc) =
      acc ++ l.filter (fun p => !(t.contains p)) by
    simpa using haux s [] h (by simp)
  intro l
  induction l with
  | nil => simp
  | cons x xs ih =>
    intro acc hnd hacc
    rw [List.foldl_cons]
    cases hc : t.contains x
    · have hx : x ∉ acc := hacc x (by simp)
      have hset : setAdd acc x = acc ++ [x] := by simp [setAdd, hx]
      have hxt : x ∉ t := fun hm => by
        rw [(contains_iff_mem t x).mpr hm] at hc; exact Bool.true_eq_false.mp hc
      rw [if_neg (by simp [hc]), hset,
        ih (acc ++ [x]) (List.nodup_cons.mp hnd).2 ?hmem]
      · simp [List.filter_cons, hc, hxt]
      · intro p hp
        simp only [List.mem_append, List.mem_singleton]
        rintro (hpacc | rfl)
        · exact hacc p (by simp [hp]) hpacc
        · exact (List.nodup_cons.mp hnd).1 hp
    · have hxt : x ∈ t := (contains_iff_mem t x).mp hc
      rw [if_pos (by simp [hc]), ih acc (List.nodup_cons.mp hnd).2
        (fun p hp => hacc p (by simp [hp]))]
      simp [List.filter_cons, hc, hxt]

theorem compareCommonElements_eq (L R : List String)
    (lm rm : List (String × XmlNode)) (hL : L.Nodup)
    (htot : ∀ p ∈ L, R.contains p = true →
      ((mapGet lm p).isSome = true ∧ (mapGet rm p).isSome = true)) :
    compareCommonElements L R lm rm =
      (L.filter (fun p => R.contains p && identAt lm rm p),
       L.filter (fun p => R.contains p && !(identAt lm rm p))) := by
  unfold compareCommonElements
  suffices haux : ∀ (l : List String) (acc : List String × List String),
      l.Nodup → (∀ p ∈ l, p ∉ acc.1 ∧ p ∉ acc.2) →
      (∀ p ∈ l, R.contains p = true →
        ((mapGet lm p).isSome = true ∧ (mapGet rm p).isSome = true)) →
      (l.foldl (fun md xpath =>
        if !(R.contains xpath) then md
        else
          match mapGet lm xpath, mapGet rm xpath with
          | some leftNode, some rightNode =>
            if areNodesIdentical leftNode rightNode then (setAdd md.1 xpath, md.2)
            else (md.1, setAdd md.2 xpath)
          | _, _ => md) acc) =
      (acc.1 ++ l.filter (fun p => R.contains p && identAt lm rm p),
       acc.2 ++ l.filter (fun p => R.contains p && !(identAt lm rm p))) by
    simpa using haux L ([], []) hL (by simp) htot
  intro l
  induction l with
  | nil => intro acc _ _ _; simp
  | cons x xs ih =>
    intro acc hnd hacc htot'
    have hxacc := hacc x (by simp)
    have hnd' := List.nodup_cons.mp hnd
    rw [List.foldl_cons]
    cases hc : R.contains x
    · have hxt : x ∉ R := fun hm => by
        rw [(contains_iff_mem R x).mpr hm] at hc; exact Bool.true_eq_false.mp hc
      rw [if_pos (by simp [hc])]
      rw [ih acc hnd'.2 (fun p hp => hacc p (by simp [hp]))
        (fun p hp hcp => htot' p (by simp [hp]) hcp)]
      simp [List.filter_cons, hc, hxt]
    · rcases htot' x (by simp) hc with ⟨hsl, hsr⟩
      rcases Option.isSome_iff_exists.mp hsl with ⟨ln, hln⟩
      rcases Option.isSome_iff_exists.mp hsr with ⟨rn, hrn⟩
      have hident : identAt lm rm x = areNodesIdentical ln rn := by
        unfold identAt
        rw [hln, hrn]
      have hxt : x ∈ R := (contains_iff_mem R x).mp hc
      have htotx : ∀ p ∈ xs, R.contains p = true →
          ((mapGet lm p).isSome = true ∧ (mapGet rm p).isSome = true) :=
        fun p hp hcp => htot' p (by simp [hp]) hcp
      cases hid : areNodesIdentical ln rn
      · have hset : setAdd acc.2 x = acc.2 ++ [x] := by simp [setAdd, hxacc.2]
        simp only [hln, hrn, hc, hid, Bool.not_true, Bool.false_eq_true, if_false, hset]
        rw [ih (acc.1, acc.2 ++ [x]) hnd'.2 ?hmem htotx]
        · simp [List.filter_cons, hc, hident, hid, hxt]
        · intro p hp
          refine ⟨(hacc p (by simp [hp])).1, ?_⟩
          simp only [List.mem_append, List.mem_singleton]
          rintro (hpacc | rfl)
          · exact (hacc p (by simp [hp])).2 hpacc
          · exact hnd'.1 hp
      · have hset : setAdd acc.1 x = acc.1 ++ [x] := by simp [setAdd, hxacc.1]
        simp only [hln, hrn, hc, hid, Bool.not_true, Bool.false_eq_true, if_false,
          if_true, hset]
        rw [ih (acc.1 ++ [x], acc.2) hnd'.2 ?hmem2 htotx]
        · simp [List.filter_cons, hc, hident, hid, hxt]
        · intro p hp
          refine ⟨?_, (hacc p (by simp [hp])).2⟩
          simp only [List.mem_append, List.mem_singleton]
          rintro (hpacc | rfl)
          · exact (hacc p (by simp [hp])).1 hpacc
          · exact hnd'.1 hp


/-! ## compareXml characterization -/

theorem comm_lookups_total (lt rt : XmlNode) :
    ∀ p ∈ getAllXPaths lt, (getAllXPaths rt).contains p = true →
      ((mapGet (flattenTree lt) p).isSome = true ∧
       (mapGet (flattenTree rt) p).isSome = true) :=
  fun p hp hc =>
    ⟨(mapGet_flattenTree_isSome lt p).mpr hp,
     (mapGet_flattenTree_isSome rt p).mpr ((contains_iff_mem _ _).mp hc)⟩

theorem compareXml_matched_eq (lt rt : XmlNode) :
    (compareXml lt rt).matched =
      (getAllXPaths lt).filter (fun p => (getAllXPaths rt).contains p &&
        identAt (flattenTree lt) (flattenTree rt) p) := by
  have h := compareCommonElements_eq (getAllXPaths lt) (getAllXPaths rt)
    (flattenTree lt) (flattenTree rt) (nodup_getAllXPaths lt)
    (comm_lookups_total lt rt)
  calc (compareXml lt rt).matched
      = (compareCommonElements (getAllXPaths lt) (getAllXPaths rt)
          (flattenTree lt) (flattenTree rt)).1 := rfl
    _ = _ := by rw [h]

theorem compareXml_different_eq (lt rt : XmlNode) :
    (compareXml lt rt).different =
      (getAllXPaths lt).filter (fun p => (getAllXPaths rt).contains p &&
        !(identAt (flattenTree lt) (flattenTree rt) p)) := by
  have h := compareCommonElements_eq (getAllXPaths lt) (getAllXPaths rt)
    (flattenTree lt) (flattenTree rt) (nodup_getAllXPaths lt)
    (comm_lookups_total lt rt)
  calc (compareXml lt rt).different
      = (compareCommonElements (getAllXPaths lt) (getAllXPaths rt)
          (flattenTree lt) (flattenTree rt)).2 := rfl
    _ = _ := by rw [h]

theorem compareXml_leftOnly_eq (lt rt : XmlNode) :
    (compareXml lt rt).leftOnly =
      (getAllXPaths lt).filter (fun p => !((getAllXPaths rt).contains p)) :=
  findUniqueElements_eq_filter _ _ (nodup_getAllXPaths lt)

theorem compareXml_rightOnly_eq (lt rt : XmlNode) :
    (compareXml lt rt).rightOnly =
      (getAllXPaths rt).filter (fun p => !((getAllXPaths lt).contains p)) :=
  findUniqueElements_eq_filter _ _ (nodup_getAllXPaths rt)

theorem mem_compareXml_matched (lt rt : XmlNode) (p : String) :
    p ∈ (compareXml lt rt).matched ↔
      p ∈ getAllXPaths lt ∧ p ∈ getAllXPaths rt ∧
        identAt (flattenTree lt) (flattenTree rt) p = true := by
  rw [compareXml_matched_eq, List.mem_filter]
  simp [contains_iff_mem, and_assoc]

theorem mem_compareXml_different (lt rt : XmlNode) (p : String) :
    p ∈ (compareXml lt rt).different ↔
      p ∈ getAllXPaths lt ∧ p ∈ getAllXPaths rt ∧
        identAt (flattenTree lt) (flattenTree rt) p = false := by
  rw [compareXml_different_eq, List.mem_filter]
  simp [contains_iff_mem, and_assoc]

theorem mem_compareXml_leftOnly (lt rt : XmlNode) (p : String) :
    p ∈ (compareXml lt rt).leftOnly ↔
      p ∈ getAllXPaths lt ∧ p ∉ getAllXPaths rt := by
  rw [compareXml_leftOnly_eq, List.mem_filter]
  simp [contains_iff_mem]

theorem mem_compareXml_rightOnly (lt rt : XmlNode) (p : String) :
    p ∈ (compareXml lt rt).rightOnly ↔
      p ∈ getAllXPaths rt ∧ p ∉ getAllXPaths lt := by
  rw [compareXml_rightOnly_eq, List.mem_filter]
  simp [contains_iff_mem]

/-! ## Attribute and node equivalence -/

theorem jsGetAttr_isSome_iff (attrs : List (String × String)) (k : String) :
    (jsGetAttr attrs k).isSome = true ↔ k ∈ objKeys attrs := by
  unfold jsGetAttr objKeys
  cases hfind : attrs.find? (fun kv => kv.1 == k) with
  | none =>
    simp only [Option.map_none', Option.isSome_none, Bool.false_eq_true, false_iff]
    intro hmem
    rcases List.mem_map.mp hmem with ⟨kv, hkv, hk⟩
    exact List.find?_eq_none.mp hfind kv hkv (by simp [hk])
  | some kv =>
    simp only [Option.map_some', Option.isSome_some, true_iff]
    exact List.mem_map.mpr ⟨kv, List.mem_of_find?_eq_some hfind, by
      simpa using List.find?_some hfind⟩

theorem areAttributesEqual_iff (l r : List (String × String))
    (hl : (objKeys l).Nodup) (hr : (objKeys r).Nodup) :
    areAttributesEqual l r = true ↔ ∀ k, jsGetAttr l k = jsGetAttr r k := by
  unfold areAttributesEqual
  constructor
  · intro h
    by_cases hlen : (objKeys l).length = (objKeys r).length
    swap
    · rw [if_pos (by simpa using hlen)] at h
      exact absurd h Bool.false_ne_true
    rw [if_neg (by simp [hlen])] at h
    have hall : ∀ k ∈ objKeys l, jsGetAttr l k = jsGetAttr r k := by
      intro k hk
      have := List.all_eq_true.mp h k hk
      exact eq_of_beq this
    intro k
    by_cases hk : k ∈ objKeys l
    · exact hall k hk
    · have hnl : jsGetAttr l k = none := by
        cases hval : jsGetAttr l k with
        | none => rfl
        | some v =>
          exact absurd ((jsGetAttr_isSome_iff l k).mp (by simp [hval])) hk
      rw [hnl]
      cases hval : jsGetAttr r k with
      | none => rfl
      | some v =>
        exfalso
        have hkr : k ∈ objKeys r := (jsGetAttr_isSome_iff r k).mp (by simp [hval])
        have hsub : (objKeys l).toFinset ⊆ (objKeys r).toFinset := by
          intro a ha
          rw [List.mem_toFinset] at ha ⊢
          have := hall a ha
          have hsome := (jsGetAttr_isSome_iff l a).mpr ha
          rw [this] at hsome
          exact (jsGetAttr_isSome_iff r a).mp hsome
        have hcard : (objKeys r).toFinset.card ≤ (objKeys l).toFinset.card := by
          rw [List.toFinset_card_of_nodup hl, List.toFinset_card_of_nodup hr, hlen]
        have heq := Finset.eq_of_subset_of_card_le hsub hcard
        have : k ∈ (objKeys l).toFinset := by
          rw [heq, List.mem_toFinset]
          exact hkr
        rw [List.mem_toFinset] at this
        exact hk this
  · intro h
    have hfin : (objKeys l).toFinset = (objKeys r).toFinset := by
      apply Finset.ext
      intro a
      rw [List.mem_toFinset, List.mem_toFinset]
      constructor
      · intro ha
        have hsome := (jsGetAttr_isSome_iff l a).mpr ha
        rw [h a] at hsome
        exact (jsGetAttr_isSome_iff r a).mp hsome
      · intro ha
        have hsome := (jsGetAttr_isSome_iff r a).mpr ha
        rw [← h a] at hsome
        exact (jsGetAttr_isSome_iff l a).mp hsome
    have hlen : (objKeys l).length = (objKeys r).length := by
      rw [← List.toFinset_card_of_nodup hl, ← List.toFinset_card_of_nodup hr, hfin]
    rw [if_neg (by simp [hlen])]
    exact List.all_eq_true.mpr fun k _ => by simp [h k]

theorem areNodesIdentical_iff (a b : XmlNode) :
    areNodesIdentical a b = true ↔
      (a.textContent = b.textContent ∧
       areAttributesEqual a.attributes b.attributes = true) := by
  unfold areNodesIdentical isTextContentEqual
  cases htxt : (a.textContent == b.textContent) <;>
    cases hattr : areAttributesEqual a.attributes b.attributes <;>
      simp_all

theorem areAttributesEqual_self (attrs : List (String × String)) :
    areAttributesEqual attrs attrs = true := by
  unfold areAttributesEqual
  simp

theorem areNodesIdentical_self (n : XmlNode) : areNodesIdentical n n = true := by
  rw [areNodesIdentical_iff]
  exact ⟨rfl, areAttributesEqual_self _⟩

theorem areNodesIdentical_withChildren (a b : XmlNode)
    (cs1 cs2 : List XmlNode) :
    areNodesIdentical (a.withChildren cs1) (b.withChildren cs2) =
      areNodesIdentical a b := by
  cases a; cases b; rfl


/-! ## Length arithmetic for statistics -/

theorem filter_and_split_length (l : List String) (q r : String → Bool) :
    (l.filter (fun p => q p && r p)).length +
      (l.filter (fun p => q p && !(r p))).length = (l.filter q).length := by
  induction l with
  | nil => simp
  | cons x xs ih =>
    cases hq : q x <;> cases hr : r x <;>
      simp [List.filter_cons, hq, hr] <;> omega

theorem filter_split_length (l : List String) (q : String → Bool) :
    (l.filter q).length + (l.filter (fun p => !(q p))).length = l.length := by
  induction l with
  | nil => simp
  | cons x xs ih =>
    cases hq : q x <;> simp [List.filter_cons, hq] <;> omega

theorem filter_contains_toFinset (L R : List String) :
    (L.filter (fun p => R.contains p)).toFinset = L.toFinset ∩ R.toFinset := by
  apply Finset.ext
  intro a
  simp [List.mem_toFinset, List.mem_filter, contains_iff_mem, Finset.mem_inter]

theorem filter_contains_comm_length (L R : List String) (hL : L.Nodup)
    (hR : R.Nodup) :
    (L.filter (fun p => R.contains p)).length =
      (R.filter (fun p => L.contains p)).length := by
  calc (L.filter (fun p => R.contains p)).length
      = (L.filter (fun p => R.contains p)).toFinset.card :=
        (List.toFinset_card_of_nodup (hL.filter _)).symm
    _ = (L.toFinset ∩ R.toFinset).card := by rw [filter_contains_toFinset]
    _ = (R.toFinset ∩ L.toFinset).card := by rw [Finset.inter_comm]
    _ = (R.filter (fun p => L.contains p)).toFinset.card := by
        rw [filter_contains_toFinset]
    _ = (R.filter (fun p => L.contains p)).length :=
        List.toFinset_card_of_nodup (hR.filter _)

theorem getAllXPaths_length_card (t : XmlNode) :
    (getAllXPaths t).length = (allXPathsList t).toFinset.card := by
  have hfin : (getAllXPaths t).toFinset = (allXPathsList t).toFinset := by
    apply Finset.ext
    intro a
    rw [List.mem_toFinset, List.mem_toFinset]
    exact mem_getAllXPaths t a
  calc (getAllXPaths t).length
      = (getAllXPaths t).toFinset.card :=
        (List.toFinset_card_of_nodup (nodup_getAllXPaths t)).symm
    _ = (allXPathsList t).toFinset.card := by rw [hfin]


/-! ## Claim C1 -/

set_option maxHeartbeats 1000000 in
/-- C1: for every two trees given to `compareXml`, every path in both trees'
path sets lands in exactly one of `matched`/`different` (and in neither
only-set); every path only in the left tree's path set lands in `leftOnly`
and in no other set; symmetrically for `rightOnly`. -/
theorem c1_compareXml_partition (lt rt : XmlNode) (p : String) :
    ((p ∈ getAllXPaths lt ∧ p ∈ getAllXPaths rt) ↔
      (p ∈ (compareXml lt rt).matched ∨ p ∈ (compareXml lt rt).different)) ∧
    ¬(p ∈ (compareXml lt rt).matched ∧ p ∈ (compareXml lt rt).different) ∧
    (p ∈ (compareXml lt rt).leftOnly ↔
      (p ∈ getAllXPaths lt ∧ p ∉ getAllXPaths rt)) ∧
    (p ∈ (compareXml lt rt).rightOnly ↔
      (p ∈ getAllXPaths rt ∧ p ∉ getAllXPaths lt)) ∧
    ¬(p ∈ (compareXml lt rt).leftOnly ∧ p ∈ (compareXml lt rt).matched) ∧
    ¬(p ∈ (compareXml lt rt).leftOnly ∧ p ∈ (compareXml lt rt).different) ∧
    ¬(p ∈ (compareXml lt rt).leftOnly ∧ p ∈ (compareXml lt rt).rightOnly) ∧
    ¬(p ∈ (compareXml lt rt).rightOnly ∧ p ∈ (compareXml lt rt).matched) ∧
    ¬(p ∈ (compareXml lt rt).rightOnly ∧ p ∈ (compareXml lt rt).different) := by
  have hm := mem_compareXml_matched lt rt p
  have hd := mem_compareXml_different lt rt p
  have hlo := mem_compareXml_leftOnly lt rt p
  have hro := mem_compareXml_rightOnly lt rt p
  rw [hm, hd, hlo, hro]
  cases hi : identAt (flattenTree lt) (flattenTree rt) p <;> simp [hi] <;> tauto

/-- C1, instantiated: the spec's diff scenario, at the path `/root/b`. -/
theorem c1_compareXml_partition_witness :
    "/root/b" ∈ (compareXml sampleLeftTree sampleRightTree).leftOnly :=
  (c1_compareXml_partition sampleLeftTree sampleRightTree "/root/b").2.2.1.mpr
    (by constructor <;> decide)

/-! ## Claim C2 -/

theorem areAttributesEqual_length_ne (l r : List (String × String))
    (h : l.length ≠ r.length) : areAttributesEqual l r = false := by
  unfold areAttributesEqual objKeys
  rw [if_pos]
  simpa using h

/-- C2: a common path is `matched` iff the two nodes' `textContent` strings
are equal and their attribute mappings agree on every key (same key set,
same values), `different` otherwise; a difference in attribute count alone
already forces `different`; and the classification never consults either
node's children. -/
theorem c2_matched_iff_equivalent (lt rt : XmlNode) (p : String)
    (ln rn : XmlNode)
    (hpL : p ∈ getAllXPaths lt) (hpR : p ∈ getAllXPaths rt)
    (hln : mapGet (flattenTree lt) p = some ln)
    (hrn : mapGet (flattenTree rt) p = some rn)
    (hkl : (objKeys ln.attributes).Nodup) (hkr : (objKeys rn.attributes).Nodup) :
    (p ∈ (compareXml lt rt).matched ↔
      (ln.textContent = rn.textContent ∧
        ∀ k, jsGetAttr ln.attributes k = jsGetAttr rn.attributes k)) ∧
    (p ∈ (compareXml lt rt).different ↔
      ¬(ln.textContent = rn.textContent ∧
        ∀ k, jsGetAttr ln.attributes k = jsGetAttr rn.attributes k)) ∧
    (ln.attributes.length ≠ rn.attributes.length →
      p ∈ (compareXml lt rt).different) ∧
    (∀ cs1 cs2, areNodesIdentical (ln.withChildren cs1) (rn.withChildren cs2) =
      areNodesIdentical ln rn) := by
  have hident : identAt (flattenTree lt) (flattenTree rt) p =
      areNodesIdentical ln rn := by
    unfold identAt
    rw [hln, hrn]
  have hiff : areNodesIdentical ln rn = true ↔
      (ln.textContent = rn.textContent ∧
        ∀ k, jsGetAttr ln.attributes k = jsGetAttr rn.attributes k) := by
    rw [areNodesIdentical_iff, areAttributesEqual_iff _ _ hkl hkr]
  refine ⟨?_, ?_, ?_, fun cs1 cs2 => areNodesIdentical_withChildren ln rn cs1 cs2⟩
  · rw [mem_compareXml_matched]
    constructor
    · rintro ⟨_, _, hid⟩
      rw [hident] at hid
      exact hiff.mp hid
    · intro hrhs
      exact ⟨hpL, hpR, by rw [hident]; exact hiff.mpr hrhs⟩
  · rw [mem_compareXml_different]
    constructor
    · rintro ⟨_, _, hid⟩
      rw [hident] at hid
      intro hrhs
      rw [hiff.mpr hrhs] at hid
      exact Bool.true_eq_false.mp hid
    · intro hrhs
      refine ⟨hpL, hpR, ?_⟩
      rw [hident]
      cases hval : areNodesIdentical ln rn
      · rfl
      · exact absurd (hiff.mp hval) hrhs
  · intro hne
    rw [mem_compareXml_different]
    refine ⟨hpL, hpR, ?_⟩
    rw [hident]
    cases hval : areNodesIdentical ln rn
    · rfl
    · rcases areNodesIdentical_iff ln rn |>.mp hval with ⟨_, hattr⟩
      rw [areAttributesEqual_length_ne _ _ hne] at hattr
      exact absurd hattr (by simp)

/-- C2, instantiated: `/root/a` (text `1` vs `2`) is classified
`different`. -/
theorem c2_matched_iff_equivalent_witness :
    "/root/a" ∈ (compareXml sampleLeftTree sampleRightTree).different :=
  ((c2_matched_iff_equivalent sampleLeftTree sampleRightTree "/root/a"
      (XmlNode.mk "a" "/root/a" [] "1" [] "a" 1 1)
      (XmlNode.mk "a" "/root/a" [] "2" [] "a" 1 1)
      (by decide) (by decide) rfl rfl (by decide) (by decide)).2.1).mpr
    (by intro h; exact absurd h.1 (by decide))

/-! ## Claim C10 -/

/-- C10: every stats field of a `compareXml` report equals the size of the
corresponding set — `totalLeft`/`totalRight` the number of distinct paths
of each input tree — and consequently
`totalLeft = matched + different + leftOnly` and
`totalRight = matched + different + rightOnly`. -/
theorem c10_stats_consistent (lt rt : XmlNode) :
    ((compareXml lt rt).stats.totalLeft = (allXPathsList lt).toFinset.card) ∧
    ((compareXml lt rt).stats.totalRight = (allXPathsList rt).toFinset.card) ∧
    ((compareXml lt rt).stats.matched = (compareXml lt rt).matched.length) ∧
    ((compareXml lt rt).stats.different = (compareXml lt rt).different.length) ∧
    ((compareXml lt rt).stats.leftOnly = (compareXml lt rt).leftOnly.length) ∧
    ((compareXml lt rt).stats.rightOnly = (compareXml lt rt).rightOnly.length) ∧
    ((compareXml lt rt).stats.totalLeft =
      (compareXml lt rt).stats.matched + (compareXml lt rt).stats.different +
        (compareXml lt rt).stats.leftOnly) ∧
    ((compareXml lt rt).stats.totalRight =
      (compareXml lt rt).stats.matched + (compareXml lt rt).stats.different +
        (compareXml lt rt).stats.rightOnly) := by
  refine ⟨getAllXPaths_length_card lt, getAllXPaths_length_card rt,
    rfl, rfl, rfl, rfl, ?_, ?_⟩
  · have h1 := filter_and_split_length (getAllXPaths lt)
      (fun p => (getAllXPaths rt).contains p)
      (identAt (flattenTree lt) (flattenTree rt))
    have h2 := filter_split_length (getAllXPaths lt)
      (fun p => (getAllXPaths rt).contains p)
    have hm : (compareXml lt rt).stats.matched =
        ((getAllXPaths lt).filter (fun p => (getAllXPaths rt).contains p &&
          identAt (flattenTree lt) (flattenTree rt) p)).length := by
      show (compareXml lt rt).matched.length = _
      rw [compareXml_matched_eq]
    have hd : (compareXml lt rt).stats.different =
        ((getAllXPaths lt).filter (fun p => (getAllXPaths rt).contains p &&
          !(identAt (flattenTree lt) (flattenTree rt) p))).length := by
      show (compareXml lt rt).different.length = _
      rw [compareXml_different_eq]
    have hlo : (compareXml lt rt).stats.leftOnly =
        ((getAllXPaths lt).filter
          (fun p => !((getAllXPaths rt).contains p))).length := by
      show (compareXml lt rt).leftOnly.length = _
      rw [compareXml_leftOnly_eq]
    have htl : (compareXml lt rt).stats.totalLeft = (getAllXPaths lt).length := rfl
    rw [htl, hm, hd, hlo]
    omega
  · have h1 := filter_and_split_length (getAllXPaths lt)
      (fun p => (getAllXPaths rt).contains p)
      (identAt (flattenTree lt) (flattenTree rt))
    have h2 := filter_split_length (getAllXPaths rt)
      (fun p => (getAllXPaths lt).contains p)
    have hcomm := filter_contains_comm_length (getAllXPaths lt) (getAllXPaths rt)
      (nodup_getAllXPaths lt) (nodup_getAllXPaths rt)
    have hm : (compareXml lt rt).stats.matched =
        ((getAllXPaths lt).filter (fun p => (getAllXPaths rt).contains p &&
          identAt (flattenTree lt) (flattenTree rt) p)).length := by
      show (compareXml lt rt).matched.length = _
      rw [compareXml_matched_eq]
    have hd : (compareXml lt rt).stats.different =
        ((getAllXPaths lt).filter (fun p => (getAllXPaths rt).contains p &&
          !(identAt (flattenTree lt) (flattenTree rt) p))).length := by
      show (compareXml lt rt).different.length = _
      rw [compareXml_different_eq]
    have hro : (compareXml lt rt).stats.rightOnly =
        ((getAllXPaths rt).filter
          (fun p => !((getAllXPaths lt).contains p))).length := by
      show (compareXml lt rt).rightOnly.length = _
      rw [compareXml_rightOnly_eq]
    have htr : (compareXml lt rt).stats.totalRight = (getAllXPaths rt).length := rfl
    rw [htr, hm, hd, hro]
    omega


/-! ## Claim C7 -/

theorem getDiffStatus_some_eq (xpath : String) (results : DiffResults)
    (side : String) :
    getDiffStatus xpath (some results) side =
      (if results.matched.contains xpath then "matched"
       else if results.different.contains xpath then "different"
       else if side == "left" && results.leftOnly.contains xpath then "extra"
       else if side == "right" && results.rightOnly.contains xpath then "extra"
       else "neutral") := rfl

/-- C7: `getDiffStatus` returns `neutral` when the report is absent, and
otherwise checks `matched`, then `different`, then the given side's
only-set, in that fixed priority order — even on hand-built reports whose
sets overlap — returning `neutral` when no set contains the path, in
particular when the path sits only in the other side's only-set. -/
theorem c7_getDiffStatus_priority (xpath : String) (results : DiffResults)
    (side : String) (hside : side = "left" ∨ side = "right") :
    getDiffStatus xpath none side = "neutral" ∧
    (xpath ∈ results.matched →
      getDiffStatus xpath (some results) side = "matched") ∧
    (xpath ∉ results.matched → xpath ∈ results.different →
      getDiffStatus xpath (some results) side = "different") ∧
    (xpath ∉ results.matched → xpath ∉ results.different →
      xpath ∈ (if side = "left" then results.leftOnly else results.rightOnly) →
      getDiffStatus xpath (some results) side = "extra") ∧
    (xpath ∉ results.matched → xpath ∉ results.different →
      xpath ∉ (if side = "left" then results.leftOnly else results.rightOnly) →
      getDiffStatus xpath (some results) side = "neutral") := by
  refine ⟨rfl, ?_, ?_, ?_, ?_⟩
  · intro hmem
    rw [getDiffStatus_some_eq]
    rw [if_pos ((contains_iff_mem _ _).mpr hmem)]
  · intro hnm hmem
    rw [getDiffStatus_some_eq]
    rw [if_neg (fun hc => hnm ((contains_iff_mem _ _).mp hc)),
      if_pos ((contains_iff_mem _ _).mpr hmem)]
  · intro hnm hnd hmem
    rw [getDiffStatus_some_eq]
    rw [if_neg (fun hc => hnm ((contains_iff_mem _ _).mp hc)),
      if_neg (fun hc => hnd ((contains_iff_mem _ _).mp hc))]
    have hll : (("left" : String) == "left") = true := by decide
    have hrl : (("right" : String) == "left") = false := by decide
    have hrr : (("right" : String) == "right") = true := by decide
    rcases hside with hs | hs <;> subst hs
    · have hmem' : xpath ∈ results.leftOnly := by simpa using hmem
      rw [if_pos (by rw [hll, (contains_iff_mem _ _).mpr hmem']; rfl)]
    · have hmem' : xpath ∈ results.rightOnly := by simpa using hmem
      rw [if_neg (by rw [hrl]; simp),
        if_pos (by rw [hrr, (contains_iff_mem _ _).mpr hmem']; rfl)]
  · intro hnm hnd hnmem
    rw [getDiffStatus_some_eq]
    rw [if_neg (fun hc => hnm ((contains_iff_mem _ _).mp hc)),
      if_neg (fun hc => hnd ((contains_iff_mem _ _).mp hc))]
    have hlr : (("left" : String) == "right") = false := by decide
    have hrl : (("right" : String) == "left") = false := by decide
    rcases hside with hs | hs <;> subst hs
    · have hnmem' : xpath ∉ results.leftOnly := by simpa using hnmem
      rw [if_neg (by
          simp only [Bool.and_eq_true, beq_iff_eq]
          rintro ⟨-, hc⟩
          exact hnmem' ((contains_iff_mem _ _).mp hc)),
        if_neg (by rw [hlr]; simp)]
    · have hnmem' : xpath ∉ results.rightOnly := by simpa using hnmem
      rw [if_neg (by rw [hrl]; simp),
        if_neg (by
          simp only [Bool.and_eq_true, beq_iff_eq]
          rintro ⟨-, hc⟩
          exact hnmem' ((contains_iff_mem _ _).mp hc))]

/-- C7, instantiated on an overlapping hand-built report: `/a` sits in
`matched`, `different` and both only-sets, and resolves to `matched`;
`/r` sits only in the right only-set and resolves to `neutral` on the
left side. -/
theorem c7_getDiffStatus_priority_witness :
    getDiffStatus "/a" (some overlapReport) "left" = "matched" ∧
    getDiffStatus "/r" (some overlapReport) "left" = "neutral" :=
  ⟨(c7_getDiffStatus_priority "/a" overlapReport "left" (Or.inl rfl)).2.1
      (by decide),
   (c7_getDiffStatus_priority "/r" overlapReport "left" (Or.inl rfl)).2.2.2.2
      (by decide) (by decide) (by decide)⟩


/-! ## Whitespace, trimming, collapsing -/

theorem jsTrim_eq_nil_of_all_ws (l : List Char) (h : ∀ c ∈ l, isWsJs c = true) :
    jsTrim l = [] := by
  unfold jsTrim
  rw [List.dropWhile_eq_nil_iff.mpr h]
  simp

theorem jsTrim_ne_nil_of_not_ws (l : List Char) (c : Char) (hc : c ∈ l)
    (hw : isWsJs c = false) : jsTrim l ≠ [] := by
  unfold jsTrim
  intro hnil
  have h1 : (l.dropWhile isWsJs).reverse.dropWhile isWsJs = [] := by
    have := congrArg List.reverse hnil
    simpa using this
  have h2 : ∀ x ∈ (l.dropWhile isWsJs).reverse, isWsJs x = true :=
    List.dropWhile_eq_nil_iff.mp h1
  have h3 : ∀ x ∈ l.dropWhile isWsJs, isWsJs x = true := by
    intro x hx
    exact h2 x (List.mem_reverse.mpr hx)
  have h4 : ∀ x ∈ l, isWsJs x = true := by
    intro x hx
    rw [← List.takeWhile_append_dropWhile (p := isWsJs) (l := l)] at hx
    rcases List.mem_append.mp hx with hx | hx
    · exact List.mem_takeWhile_imp hx
    · exact h3 x hx
  rw [h4 c hc] at hw
  exact Bool.true_eq_false.mp hw

/-- The pair of adjacent characters is not a double whitespace. -/
theorem collapseAux_head_not_ws (l : List Char) (c : Char) (r : List Char)
    (h : collapseAux true l = c :: r) : isWsJs c = false := by
  induction l generalizing c r with
  | nil => exact absurd h (by simp [collapseAux])
  | cons c0 rest ih =>
    unfold collapseAux at h
    cases hws : isWsJs c0
    · rw [if_neg (by simp [hws])] at h
      cases h
      exact hws
    · rw [if_pos (by simp [hws]), if_pos rfl] at h
      exact ih c r h

theorem collapseAux_chain (l : List Char) (b : Bool) :
    List.Chain' (fun a c => ¬(isWsJs a = true ∧ isWsJs c = true))
      (collapseAux b l) := by
  induction l generalizing b with
  | nil => simp [collapseAux]
  | cons c0 rest ih =>
    unfold collapseAux
    cases hws : isWsJs c0
    · rw [if_neg (by simp [hws])]
      rw [List.chain'_cons']
      refine ⟨?_, ih false⟩
      intro y hy
      rintro ⟨hc0, _⟩
      rw [hws] at hc0
      exact Bool.false_eq_true.mp hc0
    · rw [if_pos (by simp [hws])]
      cases b
      · rw [if_neg (by simp)]
        rw [List.chain'_cons']
        refine ⟨?_, ih true⟩
        intro y hy
        rintro ⟨_, hy'⟩
        cases hcoll : collapseAux true rest with
        | nil => rw [hcoll] at hy; exact absurd hy (by simp)
        | cons z zs =>
          rw [hcoll] at hy
          simp only [List.head?_cons, Option.mem_some_iff] at hy
          subst hy
          rw [collapseAux_head_not_ws rest z zs hcoll] at hy'
          exact Bool.false_eq_true.mp hy'
      · rw [if_pos rfl]
        exact ih true

theorem chain_no_double_ws_jsTrim (m : List Char)
    (h : List.Chain' (fun a c => ¬(isWsJs a = true ∧ isWsJs c = true)) m) :
    List.Chain' (fun a c => ¬(isWsJs a = true ∧ isWsJs c = true)) (jsTrim m) := by
  unfold jsTrim
  have hsymm : ∀ (l : List Char),
      List.Chain' (fun a c => ¬(isWsJs a = true ∧ isWsJs c = true)) l →
      List.Chain' (flip (fun a c => ¬(isWsJs a = true ∧ isWsJs c = true))) l :=
    fun l hl => hl.imp (fun a c hac => fun hca => hac ⟨hca.2, hca.1⟩)
  have h1 : List.Chain' (fun a c => ¬(isWsJs a = true ∧ isWsJs c = true))
      (m.dropWhile isWsJs) := h.suffix (List.dropWhile_suffix isWsJs)
  have h2 : List.Chain' (fun a c => ¬(isWsJs a = true ∧ isWsJs c = true))
      (m.dropWhile isWsJs).reverse := List.chain'_reverse.mpr (hsymm _ h1)
  have h3 : List.Chain' (fun a c => ¬(isWsJs a = true ∧ isWsJs c = true))
      ((m.dropWhile isWsJs).reverse.dropWhile isWsJs) :=
    h2.suffix (List.dropWhile_suffix isWsJs)
  exact List.chain'_reverse.mpr (hsymm _ h3)

theorem validateXmlInput_str (s : String) :
    validateXmlInput (.str s) =
      (if (jsTrimStr s).length = 0 then .error "XML input cannot be empty"
       else .ok s) := rfl

theorem checkForParseErrors_eq (doc : DomDocModel) :
    checkForParseErrors doc =
      (match doc.parserError with
       | some pe => .error ("Invalid XML: " ++ extractErrorMessage pe)
       | none => .ok ()) := rfl

theorem parseXml_of_valid (input : XmlInput) (domParse : String → DomDocModel)
    (settings : XPathSettings) (s : String)
    (h : validateXmlInput input = .ok s) :
    parseXml input domParse settings =
      (match checkForParseErrors (domParse s) with
       | .error e => .error e
       | .ok _ => .ok (buildRoot (domParse s).documentElement settings)) := by
  unfold parseXml
  rw [h]

theorem parseXml_of_invalid (input : XmlInput) (domParse : String → DomDocModel)
    (settings : XPathSettings) (e : String)
    (h : validateXmlInput input = .error e) :
    parseXml input domParse settings = .error e := by
  unfold parseXml
  rw [h]

/-! ## Claim C8 -/

/-- C8: a non-string input fails validation with the fixed
`must be a string` message regardless of the parser; an all-whitespace (or
empty) string fails with the distinct `cannot be empty` message, again
regardless of the parser; and a string with any non-whitespace character
passes validation, so any later failure carries the parser-error prefix
`Invalid XML: `. -/
theorem c8_validation_errors (domParse : String → DomDocModel)
    (settings : XPathSettings) (s1 s2 : String)
    (h1 : ∀ c ∈ s1.data, isWsJs c = true)
    (h2 : ∃ c ∈ s2.data, isWsJs c = false) :
    (parseXml .nonString domParse settings =
      .error "XML input must be a string") ∧
    (parseXml (.str s1) domParse settings =
      .error "XML input cannot be empty") ∧
    ("XML input must be a string" ≠ "XML input cannot be empty") ∧
    (validateXmlInput (.str s2) = .ok s2) ∧
    (∀ e, parseXml (.str s2) domParse settings = .error e →
      ∃ tail, e = "Invalid XML: " ++ tail) := by
  have hval1 : validateXmlInput (.str s1) = .error "XML input cannot be empty" := by
    rw [validateXmlInput_str, if_pos]
    show (jsTrimStr s1).data.length = 0
    unfold jsTrimStr
    rw [jsTrim_eq_nil_of_all_ws s1.data h1]
    rfl
  have hval2 : validateXmlInput (.str s2) = .ok s2 := by
    rw [validateXmlInput_str, if_neg]
    rcases h2 with ⟨c, hc, hw⟩
    show ¬((jsTrimStr s2).length = 0)
    intro hlen
    exact jsTrim_ne_nil_of_not_ws s2.data c hc hw (List.length_eq_zero.mp hlen)
  refine ⟨rfl, parseXml_of_invalid _ domParse settings _ hval1, by decide,
    hval2, ?_⟩
  intro e he
  rw [parseXml_of_valid (.str s2) domParse settings s2 hval2] at he
  cases hch : checkForParseErrors (domParse s2) with
  | ok u =>
    rw [hch] at he
    exact absurd he (by simp)
  | error e2 =>
    rw [hch] at he
    simp only [Except.error.injEq] at he
    rw [checkForParseErrors_eq] at hch
    cases hpe2 : (domParse s2).parserError with
    | none =>
      rw [hpe2] at hch
      exact absurd hch (by simp)
    | some d =>
      rw [hpe2] at hch
      simp only [Except.error.injEq] at hch
      exact ⟨extractErrorMessage d, by rw [← he, ← hch]⟩

/-- C8, instantiated: a non-string and a whitespace string, against a
parser oracle that always succeeds. -/
theorem c8_validation_errors_witness :
    (parseXml .nonString (fun _ => ⟨none, itemElem⟩) defaultSettings =
      .error "XML input must be a string") ∧
    (parseXml (.str "   ") (fun _ => ⟨none, itemElem⟩) defaultSettings =
      .error "XML input cannot be empty") :=
  ⟨(c8_validation_errors (fun _ => ⟨none, itemElem⟩) defaultSettings "   " "<a/>"
      (by decide) ⟨'<', by decide, by decide⟩).1,
   (c8_validation_errors (fun _ => ⟨none, itemElem⟩) defaultSettings "   " "<a/>"
      (by decide) ⟨'<', by decide, by decide⟩).2.1⟩

/-! ## Claim C9 -/

/-- C9: when the parser reports malformed markup with diagnostic `d`, the
builder's check throws `Invalid XML: ` followed by the cleaned diagnostic —
`d` with whitespace runs collapsed to single spaces and trimmed (so the
cleaned text never contains two adjacent whitespace characters) — and that
cleaned diagnostic is truncated to exactly its first 200 characters with an
ellipsis suffix precisely when it is longer than 200 characters. -/
theorem c9_parse_error_cleaned (doc : DomDocModel) (d : String)
    (hpe : doc.parserError = some d) (hne : d ≠ "") :
    (checkForParseErrors doc =
      .error ("Invalid XML: " ++ extractErrorMessage d)) ∧
    List.Chain' (fun a c => ¬(isWsJs a = true ∧ isWsJs c = true))
      (jsTrimStr (collapseWs d)).data ∧
    ((jsTrimStr (collapseWs d)).length > 200 →
      extractErrorMessage d =
        String.mk ((jsTrimStr (collapseWs d)).data.take 200) ++ "..." ∧
      (String.mk ((jsTrimStr (collapseWs d)).data.take 200)).length = 200) ∧
    ((jsTrimStr (collapseWs d)).length ≤ 200 →
      extractErrorMessage d = jsTrimStr (collapseWs d)) := by
  have hmsg : extractErrorMessage d =
      (if (jsTrimStr (collapseWs d)).length > 200 then
        String.mk ((jsTrimStr (collapseWs d)).data.take 200) ++ "..."
      else jsTrimStr (collapseWs d)) := by
    unfold extractErrorMessage
    rw [if_neg hne]
  refine ⟨?_, ?_, ?_, ?_⟩
  · rw [checkForParseErrors_eq, hpe]
  · have hcoll : (jsTrimStr (collapseWs d)).data = jsTrim (collapseChars d.data) := rfl
    rw [hcoll]
    exact chain_no_double_ws_jsTrim _ (collapseAux_chain d.data false)
  · intro hlen
    constructor
    · rw [hmsg, if_pos hlen]
    · show ((jsTrimStr (collapseWs d)).data.take 200).length = 200
      rw [List.length_take]
      exact Nat.min_eq_left (Nat.le_of_lt hlen)
  · intro hlen
    rw [hmsg, if_neg (by omega)]

/-- C9, instantiated: a short diagnostic with an internal whitespace run. -/
theorem c9_parse_error_cleaned_witness :
    checkForParseErrors ⟨some "unclosed  tag", itemElem⟩ =
      .error "Invalid XML: unclosed tag" := by
  have h := c9_parse_error_cleaned ⟨some "unclosed  tag", itemElem⟩
    "unclosed  tag" rfl (by decide)
  rw [h.1, h.2.2.2 (by decide)]
  rfl


/-! ## Decimal rendering -/

theorem decCharsAux_eq_digits (fuel : Nat) : ∀ n : Nat, n ≤ fuel →
    decCharsAux fuel n = ((Nat.digits 10 n).map digitCh).reverse := by
  induction fuel with
  | zero =>
    intro n hn
    interval_cases n
    simp [decCharsAux]
  | succ fuel ih =>
    intro n hn
    cases n with
    | zero => simp [decCharsAux]
    | succ m =>
      have hpos : 0 < m + 1 := Nat.succ_pos m
      rw [Nat.digits_def' (by norm_num : 1 < 10) hpos, List.map_cons,
        List.reverse_cons]
      have hdiv : (m + 1) / 10 ≤ fuel := by
        have := Nat.div_lt_self hpos (by norm_num : 1 < 10)
        omega
      calc decCharsAux (fuel + 1) (m + 1)
          = decCharsAux fuel ((m + 1) / 10) ++ [digitCh ((m + 1) % 10)] := rfl
        _ = ((Nat.digits 10 ((m + 1) / 10)).map digitCh).reverse ++
              [digitCh ((m + 1) % 10)] := by rw [ih _ hdiv]

theorem digitCh_ne_reserved (d : Nat) (h : d < 10) :
    digitCh d ≠ '/' ∧ digitCh d ≠ '[' := by
  revert h
  revert d
  decide

theorem digitCh_inj (d e : Nat) (hd : d < 10) (he : e < 10)
    (h : digitCh d = digitCh e) : d = e := by
  have haux : ∀ d, d < 10 → ∀ e, e < 10 → digitCh d = digitCh e → d = e := by
    decide
  exact haux d hd e he h

theorem decRepr_chars_reserved (n : Nat) :
    ∀ c ∈ (decRepr n).data, c ≠ '/' ∧ c ≠ '[' := by
  intro c hc
  unfold decRepr at hc
  split at hc
  · have : c = '0' := by simpa using hc
    subst this
    decide
  · have hc' : c ∈ ((Nat.digits 10 n).map digitCh).reverse := by
      rw [← decCharsAux_eq_digits n n (Nat.le_refl n)]
      exact hc
    rcases List.mem_map.mp (List.mem_reverse.mp hc') with ⟨d, hd, rfl⟩
    exact digitCh_ne_reserved d (Nat.digits_lt_base (by norm_num) hd)

theorem map_digitCh_inj (l1 : List Nat) : ∀ l2 : List Nat,
    (∀ d ∈ l1, d < 10) → (∀ d ∈ l2, d < 10) →
    l1.map digitCh = l2.map digitCh → l1 = l2 := by
  induction l1 with
  | nil =>
    intro l2 _ _ h
    cases l2 with
    | nil => rfl
    | cons e t2 => exact absurd h (by simp)
  | cons d t ih =>
    intro l2 h1 h2 h
    cases l2 with
    | nil => exact absurd h (by simp)
    | cons e t2 =>
      simp only [List.map_cons, List.cons.injEq] at h
      rw [digitCh_inj d e (h1 d (by simp)) (h2 e (by simp)) h.1,
        ih t2 (fun x hx => h1 x (by simp [hx])) (fun x hx => h2 x (by simp [hx]))
          h.2]

theorem string_mk_inj (l1 l2 : List Char) (h : String.mk l1 = String.mk l2) :
    l1 = l2 := congrArg String.data h

theorem decRepr_eq_zero_repr (n : Nat) (h : decRepr n = "0") : n = 0 := by
  by_contra hn0
  unfold decRepr at h
  rw [if_neg hn0] at h
  have hdata := string_mk_inj _ _ h
  rw [decCharsAux_eq_digits n n (Nat.le_refl n)] at hdata
  have hmap : (Nat.digits 10 n).map digitCh = ['0'] := by
    have := congrArg List.reverse hdata
    simpa using this
  have hdig : Nat.digits 10 n = [0] := by
    cases hd : Nat.digits 10 n with
    | nil => rw [hd] at hmap; exact absurd hmap (by simp)
    | cons d t =>
      rw [hd] at hmap
      cases t with
      | nil =>
        simp only [List.map_cons, List.map_nil, List.cons.injEq] at hmap
        have hdlt : d < 10 := Nat.digits_lt_base (by norm_num) (by rw [hd]; simp)
        have : d = 0 := digitCh_inj d 0 hdlt (by norm_num) (by simpa using hmap.1)
        rw [this]
      | cons d2 t2 => exact absurd hmap (by simp)
  have := Nat.ofDigits_digits 10 n
  rw [hdig] at this
  simp [Nat.ofDigits] at this
  exact hn0 this.symm

theorem decRepr_inj (m n : Nat) (h : decRepr m = decRepr n) : m = n := by
  by_cases hm : m = 0
  · subst hm
    exact (decRepr_eq_zero_repr n (by rw [← h]; rfl)).symm
  · by_cases hn : n = 0
    · subst hn
      exact decRepr_eq_zero_repr m (by rw [h]; rfl)
    · unfold decRepr at h
      rw [if_neg hm, if_neg hn] at h
      have hdata := string_mk_inj _ _ h
      rw [decCharsAux_eq_digits m m (Nat.le_refl m),
        decCharsAux_eq_digits n n (Nat.le_refl n)] at hdata
      have hmap : (Nat.digits 10 m).map digitCh = (Nat.digits 10 n).map digitCh := by
        have := congrArg List.reverse hdata
        simpa using this
      have hdig := map_digitCh_inj _ _
        (fun d hd => Nat.digits_lt_base (by norm_num) hd)
        (fun d hd => Nat.digits_lt_base (by norm_num) hd) hmap
      have h1 := Nat.ofDigits_digits 10 m
      have h2 := Nat.ofDigits_digits 10 n
      rw [← h1, ← h2, hdig]


/-! ## Path-segment reasoning -/

theorem takeWhile_append_spec (p : Char → Bool) (s : List Char) :
    ∀ r : List Char, (∀ c ∈ s, p c = true) →
    (r = [] ∨ ∃ c t, r = c :: t ∧ p c = false) →
    (s ++ r).takeWhile p = s := by
  induction s with
  | nil =>
    intro r _ hr
    rcases hr with rfl | ⟨c, t, rfl, hc⟩
    · rfl
    · simp [List.takeWhile_cons, hc]
  | cons a s ih =>
    intro r hs hr
    have ha := hs a (by simp)
    simp only [List.cons_append, List.takeWhile_cons, ha, if_true]
    rw [ih r (fun c hc => hs c (by simp [hc])) hr]

theorem seg_split (s1 s2 r1 r2 : List Char)
    (h1 : ∀ c ∈ s1, c ≠ '/') (h2 : ∀ c ∈ s2, c ≠ '/')
    (hr1 : slashTail r1) (hr2 : slashTail r2)
    (h : s1 ++ r1 = s2 ++ r2) : s1 = s2 ∧ r1 = r2 := by
  have tail_shape : ∀ r : List Char, slashTail r →
      (r = [] ∨ ∃ c t, r = c :: t ∧ (!(c == '/')) = false) := by
    intro r hr
    rcases hr with rfl | ⟨t, rfl⟩
    · exact Or.inl rfl
    · exact Or.inr ⟨'/', t, rfl, by simp⟩
  have hs1 : (s1 ++ r1).takeWhile (fun c => !(c == '/')) = s1 :=
    takeWhile_append_spec _ _ _ (fun c hc => by simp [h1 c hc])
      (tail_shape r1 hr1)
  have hs2 : (s2 ++ r2).takeWhile (fun c => !(c == '/')) = s2 :=
    takeWhile_append_spec _ _ _ (fun c hc => by simp [h2 c hc])
      (tail_shape r2 hr2)
  have hseq : s1 = s2 := by rw [← hs1, ← hs2, h]
  subst hseq
  exact ⟨rfl, List.append_cancel_left h⟩

theorem data_path_step (p step : String) :
    (p ++ "/" ++ step).data = p.data ++ '/' :: step.data := by
  have h1 : (p ++ "/" ++ step).data = (p ++ "/").data ++ step.data :=
    String.data_append _ _
  have h2 : (p ++ "/").data = p.data ++ ['/'] := String.data_append _ _
  rw [h1, h2, List.append_assoc]
  rfl

/-! ## Step strings -/

theorem wfTagB_chars (t : String) (h : wfTagB t = true) :
    ∀ c ∈ t.data, c ≠ '/' ∧ c ≠ '[' := by
  intro c hc
  have := List.all_eq_true.mp h c hc
  constructor
  · intro heq
    subst heq
    simp at this
  · intro heq
    subst heq
    simp at this

theorem stepStr_data_of_gt (tag : String) (i : Nat) (h : i > 1) :
    (stepStr tag i).data = tag.data ++ '[' :: ((decRepr i).data ++ [']']) := by
  unfold stepStr
  rw [if_pos h]
  have h1 : (tag ++ "[" ++ decRepr i ++ "]").data =
      ((tag ++ "[") ++ decRepr i).data ++ [']'] := String.data_append _ _
  have h2 : ((tag ++ "[") ++ decRepr i).data = (tag ++ "[").data ++ (decRepr i).data :=
    String.data_append _ _
  have h3 : (tag ++ "[").data = tag.data ++ ['['] := String.data_append _ _
  rw [h1, h2, h3, List.append_assoc, List.append_assoc]
  rfl

theorem stepStr_no_slash (tag : String) (i : Nat)
    (h : ∀ c ∈ tag.data, c ≠ '/' ∧ c ≠ '[') :
    ∀ c ∈ (stepStr tag i).data, c ≠ '/' := by
  intro c hc
  by_cases hi : i > 1
  · rw [stepStr_data_of_gt tag i hi] at hc
    rcases List.mem_append.mp hc with hc | hc
    · exact (h c hc).1
    · rcases hc with _ | ⟨_, hc⟩
      · decide
      · rcases List.mem_append.mp hc with hc | hc
        · exact (decRepr_chars_reserved i c hc).1
        · have : c = ']' := by simpa using hc
          subst this
          decide
  · unfold stepStr at hc
    rw [if_neg hi] at hc
    exact (h c hc).1

theorem stepStr_inj (t1 t2 : String) (i1 i2 : Nat)
    (h1 : ∀ c ∈ t1.data, c ≠ '/' ∧ c ≠ '[') (h2 : ∀ c ∈ t2.data, c ≠ '/' ∧ c ≠ '[')
    (hi1 : 1 ≤ i1) (hi2 : 1 ≤ i2)
    (h : stepStr t1 i1 = stepStr t2 i2) : t1 = t2 ∧ i1 = i2 := by
  have string_eq_of_data : ∀ a b : String, a.data = b.data → a = b := by
    intro a b hab
    cases a
    cases b
    exact congrArg String.mk hab
  by_cases hc1 : i1 > 1 <;> by_cases hc2 : i2 > 1
  · have hdata := congrArg String.data h
    rw [stepStr_data_of_gt t1 i1 hc1, stepStr_data_of_gt t2 i2 hc2] at hdata
    have htag : t1.data = t2.data := by
      have e1 : (t1.data ++ '[' :: ((decRepr i1).data ++ [']'])).takeWhile
          (fun c => !(c == '[')) = t1.data :=
        takeWhile_append_spec _ _ _ (fun c hc => by simp [(h1 c hc).2])
          (Or.inr ⟨'[', _, rfl, by simp⟩)
      have e2 : (t2.data ++ '[' :: ((decRepr i2).data ++ [']'])).takeWhile
          (fun c => !(c == '[')) = t2.data :=
        takeWhile_append_spec _ _ _ (fun c hc => by simp [(h2 c hc).2])
          (Or.inr ⟨'[', _, rfl, by simp⟩)
      rw [← e1, ← e2, hdata]
    have ht : t1 = t2 := string_eq_of_data _ _ htag
    refine ⟨ht, ?_⟩
    rw [htag] at hdata
    have htl := List.append_cancel_left hdata
    simp only [List.cons.injEq, true_and] at htl
    have hdr : (decRepr i1).data = (decRepr i2).data :=
      List.append_cancel_right htl
    exact decRepr_inj i1 i2 (string_eq_of_data _ _ hdr)
  · exfalso
    have hi2' : i2 = 1 := by omega
    have hdata := congrArg String.data h
    rw [stepStr_data_of_gt t1 i1 hc1] at hdata
    have hstep2 : (stepStr t2 i2).data = t2.data := by
      unfold stepStr
      rw [if_neg hc2]
    rw [hstep2] at hdata
    have : '[' ∈ t2.data := by
      rw [← hdata]
      simp
    exact (h2 _ this).2 rfl
  · exfalso
    have hdata := congrArg String.data h
    rw [stepStr_data_of_gt t2 i2 hc2] at hdata
    have hstep1 : (stepStr t1 i1).data = t1.data := by
      unfold stepStr
      rw [if_neg hc1]
    rw [hstep1] at hdata
    have : '[' ∈ t1.data := by
      rw [hdata]
      simp
    exact (h1 _ this).2 rfl
  · have hi1' : i1 = 1 := by omega
    have hi2' : i2 = 1 := by omega
    subst hi1'
    subst hi2'
    refine ⟨?_, rfl⟩
    unfold stepStr at h
    rw [if_neg hc1, if_neg hc2] at h
    exact h


/-! ## Builder equations and invariants -/

theorem calculateIndex_none (attrs : List (String × String))
    (settings : XPathSettings) (i : Nat) (h : settings.indexAttribute = none) :
    calculateIndex attrs settings i = i := by
  unfold calculateIndex
  rw [h]

theorem calculateXPath_eq_step (tag : String) (attrs : List (String × String))
    (p : String) (settings : XPathSettings) (i tot : Nat) (leaf : Bool) :
    calculateXPath tag attrs p settings i tot leaf =
      p ++ "/" ++ stepStr tag (calculateIndex attrs settings i) := by
  simp only [calculateXPath, stepStr, ite_self]

theorem buildTreeFromElement_mk (tag : String) (attrs : List (String × String))
    (texts : List String) (kids : List DomElem) (p : String)
    (settings : XPathSettings) (i tot : Nat) :
    buildTreeFromElement (.mk tag attrs texts kids) p settings i tot =
      XmlNode.mk tag (calculateXPath tag attrs p settings i tot kids.isEmpty)
        attrs (extractDirectTextContent texts)
        (buildChildNodes kids [] (kids.map DomElem.tagName)
          (calculateXPath tag attrs p settings i tot kids.isEmpty) settings)
        (generateComparisonKey tag attrs) (calculateIndex attrs settings i)
        tot := rfl

theorem buildChildNodes_nil (seen allT : List String) (p : String)
    (settings : XPathSettings) :
    buildChildNodes [] seen allT p settings = [] := rfl

theorem buildChildNodes_cons (e : DomElem) (rest : List DomElem)
    (seen allT : List String) (p : String) (settings : XPathSettings) :
    buildChildNodes (e :: rest) seen allT p settings =
      buildTreeFromElement e p settings (seen.count e.tagName + 1)
          (allT.count e.tagName)
        :: buildChildNodes rest (e.tagName :: seen) allT p settings := rfl

theorem allNodes_mk (t x : String) (a : List (String × String)) (txt : String)
    (cs : List XmlNode) (k : String) (si st : Nat) :
    allNodes (XmlNode.mk t x a txt cs k si st) =
      XmlNode.mk t x a txt cs k si st :: allNodesList cs := rfl

theorem allNodesList_nil : allNodesList [] = [] := rfl

theorem allNodesList_cons (c : XmlNode) (rest : List XmlNode) :
    allNodesList (c :: rest) = allNodes c ++ allNodesList rest := rfl

theorem wfDomB_mk (t : String) (a : List (String × String)) (tx : List String)
    (kids : List DomElem) :
    wfDomB (.mk t a tx kids) = (wfTagB t && wfForestB kids) := rfl

theorem wfForestB_cons (e : DomElem) (rest : List DomElem) :
    wfForestB (e :: rest) = (wfDomB e && wfForestB rest) := rfl

theorem buildTree_xpath (e : DomElem) (p : String) (settings : XPathSettings)
    (i tot : Nat) :
    (buildTreeFromElement e p settings i tot).xpath =
      p ++ "/" ++ stepStr e.tagName (calculateIndex e.attributes settings i) := by
  cases e with
  | mk tag attrs texts kids =>
    rw [buildTreeFromElement_mk]
    show calculateXPath tag attrs p settings i tot kids.isEmpty = _
    rw [calculateXPath_eq_step]
    rfl

theorem domElem_sizeOf_pos (e : DomElem) : 0 < sizeOf e := by
  cases e
  simp_arith

theorem domList_sizeOf_pos (l : List DomElem) : 0 < sizeOf l := by
  cases l <;> simp_arith


theorem wfDomB_eq (e : DomElem) :
    wfDomB e = (wfTagB e.tagName && wfForestB e.children) := by
  cases e
  rfl

/-- Every path of a subtree built for an element extends the parent path by
`/`, the element's step, and a (possibly empty) slash-separated remainder;
every path of a built child forest extends the parent path by a step whose
same-tag index exceeds the count of that tag among already-seen siblings. -/
theorem buildPaths_shape (N : Nat) :
    (∀ (e : DomElem) (p : String) (settings : XPathSettings) (i tot : Nat),
      sizeOf e ≤ N → settings.indexAttribute = none → wfDomB e = true →
      ∀ q ∈ (allNodes (buildTreeFromElement e p settings i tot)).map
          XmlNode.xpath,
        ∃ r, slashTail r ∧
          q.data = p.data ++ '/' :: ((stepStr e.tagName i).data ++ r)) ∧
    (∀ (l : List DomElem) (seen allT : List String) (p : String)
        (settings : XPathSettings),
      sizeOf l ≤ N → settings.indexAttribute = none → wfForestB l = true →
      ∀ q ∈ (allNodesList (buildChildNodes l seen allT p settings)).map
          XmlNode.xpath,
        ∃ t k r, wfTagB t = true ∧ seen.count t + 1 ≤ k ∧ slashTail r ∧
          q.data = p.data ++ '/' :: ((stepStr t k).data ++ r)) := by
  induction N with
  | zero =>
    constructor
    · intro e _ _ _ _ hsize _ _
      exact absurd hsize (by have := domElem_sizeOf_pos e; omega)
    · intro l _ _ _ _ hsize _ _
      exact absurd hsize (by have := domList_sizeOf_pos l; omega)
  | succ N ih =>
    obtain ⟨ihE, ihL⟩ := ih
    constructor
    · intro e p settings i tot hsize hs hw q hq
      cases e with
      | mk tag attrs texts kids =>
        rw [buildTreeFromElement_mk, allNodes_mk, List.map_cons] at hq
        have hxp : calculateXPath tag attrs p settings i tot kids.isEmpty =
            p ++ "/" ++ stepStr tag i := by
          rw [calculateXPath_eq_step, calculateIndex_none _ _ _ hs]
        rcases List.mem_cons.mp hq with hq | hq
        · refine ⟨[], Or.inl rfl, ?_⟩
          rw [hq]
          show (calculateXPath tag attrs p settings i tot kids.isEmpty).data = _
          rw [hxp, data_path_step]
          simp [DomElem.tagName]
        · have hkids : sizeOf kids ≤ N := by
            have : sizeOf kids < sizeOf (DomElem.mk tag attrs texts kids) := by
              simp_arith
            omega
          have hwk : wfForestB kids = true := by
            rw [wfDomB_mk, Bool.and_eq_true] at hw
            exact hw.2
          rcases ihL kids [] (kids.map DomElem.tagName)
              (calculateXPath tag attrs p settings i tot kids.isEmpty) settings
              hkids hs hwk q hq with ⟨t, k, r, hwf, hk, hr, heq⟩
          refine ⟨'/' :: ((stepStr t k).data ++ r), Or.inr ⟨_, rfl⟩, ?_⟩
          rw [heq, hxp, data_path_step]
          simp [DomElem.tagName, List.append_assoc]
    · intro l seen allT p settings hsize hs hw q hq
      cases l with
      | nil =>
        rw [buildChildNodes_nil, allNodesList_nil] at hq
        exact absurd hq (by simp)
      | cons e rest =>
        rw [buildChildNodes_cons, allNodesList_cons, List.map_append] at hq
        rw [wfForestB_cons, Bool.and_eq_true] at hw
        rcases List.mem_append.mp hq with hq | hq
        · have hesize : sizeOf e ≤ N := by
            have h1 := domList_sizeOf_pos rest
            have : sizeOf (e :: rest) = 1 + sizeOf e + sizeOf rest := by
              simp_arith
            omega
          rcases ihE e p settings (seen.count e.tagName + 1)
              (allT.count e.tagName) hesize hs hw.1 q hq with ⟨r, hr, heq⟩
          refine ⟨e.tagName, seen.count e.tagName + 1, r, ?_, Nat.le_refl _,
            hr, heq⟩
          rw [wfDomB_eq, Bool.and_eq_true] at hw
          exact hw.1.1
        · have hrsize : sizeOf rest ≤ N := by
            have h1 := domElem_sizeOf_pos e
            have : sizeOf (e :: rest) = 1 + sizeOf e + sizeOf rest := by
              simp_arith
            omega
          rcases ihL rest (e.tagName :: seen) allT p settings hrsize hs hw.2
              q hq with ⟨t, k, r, hwf, hk, hr, heq⟩
          refine ⟨t, k, r, hwf, ?_, hr, heq⟩
          have hcc : seen.count t ≤ (e.tagName :: seen).count t := by
            rw [List.count_cons]
            omega
          omega


theorem string_eq_of_data_eq (a b : String) (h : a.data = b.data) : a = b := by
  cases a
  cases b
  exact congrArg String.mk h

/-- With no `indexAttribute` override and well-formed tag names, the paths
of a built subtree (and of a built child forest) are pairwise distinct. -/
theorem buildPaths_nodup (N : Nat) :
    (∀ (e : DomElem) (p : String) (settings : XPathSettings) (i tot : Nat),
      sizeOf e ≤ N → settings.indexAttribute = none → wfDomB e = true →
      ((allNodes (buildTreeFromElement e p settings i tot)).map
        XmlNode.xpath).Nodup) ∧
    (∀ (l : List DomElem) (seen allT : List String) (p : String)
        (settings : XPathSettings),
      sizeOf l ≤ N → settings.indexAttribute = none → wfForestB l = true →
      ((allNodesList (buildChildNodes l seen allT p settings)).map
        XmlNode.xpath).Nodup) := by
  induction N with
  | zero =>
    constructor
    · intro e _ _ _ _ hsize _ _
      exact absurd hsize (by have := domElem_sizeOf_pos e; omega)
    · intro l _ _ _ _ hsize _ _
      exact absurd hsize (by have := domList_sizeOf_pos l; omega)
  | succ N ih =>
    obtain ⟨ihE, ihL⟩ := ih
    constructor
    · intro e p settings i tot hsize hs hw
      cases e with
      | mk tag attrs texts kids =>
        rw [buildTreeFromElement_mk, allNodes_mk, List.map_cons,
          List.nodup_cons]
        have hkids : sizeOf kids ≤ N := by
          have : sizeOf kids < sizeOf (DomElem.mk tag attrs texts kids) := by
            simp_arith
          omega
        have hwk : wfForestB kids = true := by
          rw [wfDomB_mk, Bool.and_eq_true] at hw
          exact hw.2
        refine ⟨?_, ihL kids [] (kids.map DomElem.tagName) _ settings hkids
          hs hwk⟩
        intro hmem
        rcases (buildPaths_shape (sizeOf kids)).2 kids []
            (kids.map DomElem.tagName)
            (calculateXPath tag attrs p settings i tot kids.isEmpty) settings
            (Nat.le_refl _) hs hwk _ hmem with ⟨t, k, r, _, _, _, heq⟩
        have hlen := congrArg List.length heq
        simp only [XmlNode.xpath, List.length_append, List.length_cons] at hlen
        omega
    · intro l seen allT p settings hsize hs hw
      cases l with
      | nil =>
        rw [buildChildNodes_nil, allNodesList_nil]
        simp
      | cons e rest =>
        rw [buildChildNodes_cons, allNodesList_cons, List.map_append,
          List.nodup_append]
        rw [wfForestB_cons, Bool.and_eq_true] at hw
        have hesize : sizeOf e ≤ N := by
          have h1 := domList_sizeOf_pos rest
          have : sizeOf (e :: rest) = 1 + sizeOf e + sizeOf rest := by
            simp_arith
          omega
        have hrsize : sizeOf rest ≤ N := by
          have h1 := domElem_sizeOf_pos e
          have : sizeOf (e :: rest) = 1 + sizeOf e + sizeOf rest := by
            simp_arith
          omega
        refine ⟨ihE e p settings (seen.count e.tagName + 1)
            (allT.count e.tagName) hesize hs hw.1,
          ihL rest (e.tagName :: seen) allT p settings hrsize hs hw.2, ?_⟩
        intro q hqA hqB
        rcases (buildPaths_shape (sizeOf e)).1 e p settings
            (seen.count e.tagName + 1) (allT.count e.tagName) (Nat.le_refl _)
            hs hw.1 q hqA with ⟨r1, hr1, heq1⟩
        rcases (buildPaths_shape (sizeOf rest)).2 rest (e.tagName :: seen)
            allT p settings (Nat.le_refl _) hs hw.2 q hqB with
          ⟨t, k, r2, hwf2, hk2, hr2, heq2⟩
        have hXY : (stepStr e.tagName (seen.count e.tagName + 1)).data ++ r1 =
            (stepStr t k).data ++ r2 := by
          have h := heq1.symm.trans heq2
          have h' := List.append_cancel_left h
          simpa using h'
        have hwf1 : wfTagB e.tagName = true := by
          have hw1 := hw.1
          rw [wfDomB_eq, Bool.and_eq_true] at hw1
          exact hw1.1
        have hchars1 := wfTagB_chars _ hwf1
        have hchars2 := wfTagB_chars _ hwf2
        have hsteps := seg_split _ _ _ _
          (stepStr_no_slash _ _ hchars1) (stepStr_no_slash _ _ hchars2)
          hr1 hr2 hXY
        have hstep_eq : stepStr e.tagName (seen.count e.tagName + 1) =
            stepStr t k := string_eq_of_data_eq _ _ hsteps.1
        rcases stepStr_inj e.tagName t (seen.count e.tagName + 1) k
            hchars1 hchars2 (by omega) (by omega) hstep_eq with ⟨hte, hkk⟩
        rw [← hte, List.count_cons_self] at hk2
        omega


/-- Path uniqueness for a complete built tree: with no `indexAttribute`
override and XML-well-formed tag names, no two distinct nodes share a
path. -/
theorem buildRoot_paths_nodup (e : DomElem) (settings : XPathSettings)
    (hs : settings.indexAttribute = none) (hw : wfDomB e = true) :
    ((allNodes (buildRoot e settings)).map XmlNode.xpath).Nodup :=
  (buildPaths_nodup (sizeOf e)).1 e "" settings 1 1 (Nat.le_refl _) hs hw

theorem getAllXPaths_eq_of_nodup (t : XmlNode)
    (h : ((allNodes t).map XmlNode.xpath).Nodup) :
    getAllXPaths t = (allNodes t).map XmlNode.xpath := by
  unfold getAllXPaths
  exact listToSet_eq_self _ h

/-! ## Claim C4 -/

/-- C4 counterexample: under an `indexAttribute` override, two sibling
`<item k="1"/>` elements both resolve index 1 and receive the identical
path `/root/item`, so two distinct nodes of one built tree share a path. -/
theorem c4_counterexample_duplicate_paths :
    ((allNodes (buildRoot dupIndexDoc idxSettings)).map XmlNode.xpath) =
      ["/root", "/root/item", "/root/item"] ∧
    ¬ ((allNodes (buildRoot dupIndexDoc idxSettings)).map
        XmlNode.xpath).Nodup := by
  constructor <;> decide

/-- C4 (amended): for settings with no `indexAttribute` override, and any
document whose tag names are XML-well-formed (free of `/` and `[`), no two
distinct nodes of the built tree share a path string. -/
theorem c4_path_uniqueness (e : DomElem) (settings : XPathSettings)
    (hs : settings.indexAttribute = none) (hw : wfDomB e = true) :
    ((allNodes (buildRoot e settings)).map XmlNode.xpath).Nodup :=
  buildRoot_paths_nodup e settings hs hw

/-- C4, instantiated on `<root><item/><item/><item/></root>` with default
settings. -/
theorem c4_path_uniqueness_witness :
    ((allNodes (buildRoot tripleItemDoc defaultSettings)).map
      XmlNode.xpath).Nodup :=
  c4_path_uniqueness tripleItemDoc defaultSettings rfl (by decide)

/-! ## Claim C3 -/

/-- C3 counterexample: with the `indexAttribute` settings, the document
`<root><item k="1"/><item k="1"/></root>` builds a 3-node tree with only
2 distinct paths, so `compare(build(x), build(x))` has `matched` of size
2 while the node count is 3 (the three \"empty\" sets are still empty). -/
theorem c3_counterexample_matched_size :
    (compareXml (buildRoot dupIndexDoc idxSettings)
      (buildRoot dupIndexDoc idxSettings)).matched.length = 2 ∧
    countNodes (buildRoot dupIndexDoc idxSettings) = 3 ∧
    (2 : Nat) ≠ 3 := by
  refine ⟨by decide, by decide, by decide⟩

/-- C3 (amended): for settings with no `indexAttribute` override and a
document with XML-well-formed tag names, comparing the built tree with a
second identically built tree yields empty `different`, `leftOnly` and
`rightOnly`, and a `matched` set whose size is the total node count. -/
theorem c3_round_trip_identity (d : DomElem) (settings : XPathSettings)
    (hs : settings.indexAttribute = none) (hw : wfDomB d = true) :
    ((compareXml (buildRoot d settings) (buildRoot d settings)).different
        = []) ∧
    ((compareXml (buildRoot d settings) (buildRoot d settings)).leftOnly
        = []) ∧
    ((compareXml (buildRoot d settings) (buildRoot d settings)).rightOnly
        = []) ∧
    ((compareXml (buildRoot d settings) (buildRoot d settings)).matched.length
        = countNodes (buildRoot d settings)) := by
  have hident : ∀ p ∈ getAllXPaths (buildRoot d settings),
      identAt (flattenTree (buildRoot d settings))
        (flattenTree (buildRoot d settings)) p = true := by
    intro p hp
    have hsome := (mapGet_flattenTree_isSome (buildRoot d settings) p).mpr hp
    rcases Option.isSome_iff_exists.mp hsome with ⟨n, hn⟩
    unfold identAt
    rw [hn]
    exact areNodesIdentical_self n
  have hcontains : ∀ p ∈ getAllXPaths (buildRoot d settings),
      (getAllXPaths (buildRoot d settings)).contains p = true :=
    fun p hp => (contains_iff_mem _ _).mpr hp
  refine ⟨?_, ?_, ?_, ?_⟩
  · rw [compareXml_different_eq]
    rw [List.filter_eq_nil_iff]
    intro p hp
    simp [hcontains p hp, hident p hp]
  · rw [compareXml_leftOnly_eq]
    rw [List.filter_eq_nil_iff]
    intro p hp
    simp [hcontains p hp, hp]
  · rw [compareXml_rightOnly_eq]
    rw [List.filter_eq_nil_iff]
    intro p hp
    simp [hcontains p hp, hp]
  · rw [compareXml_matched_eq]
    have hfull : (getAllXPaths (buildRoot d settings)).filter
        (fun p => (getAllXPaths (buildRoot d settings)).contains p &&
          identAt (flattenTree (buildRoot d settings))
            (flattenTree (buildRoot d settings)) p) =
        getAllXPaths (buildRoot d settings) := by
      rw [List.filter_eq_self]
      intro p hp
      simp [hcontains p hp, hident p hp, hp]
    rw [hfull, getAllXPaths_eq_of_nodup _
      (buildRoot_paths_nodup d settings hs hw), List.length_map]
    rfl

/-- C3, instantiated on the sample document `<root><a>1</a><b/></root>`
with default settings. -/
theorem c3_round_trip_identity_witness :
    ((compareXml (buildRoot sampleLeftDoc defaultSettings)
        (buildRoot sampleLeftDoc defaultSettings)).different = []) ∧
    ((compareXml (buildRoot sampleLeftDoc defaultSettings)
        (buildRoot sampleLeftDoc defaultSettings)).matched.length =
      countNodes (buildRoot sampleLeftDoc defaultSettings)) :=
  ⟨(c3_round_trip_identity sampleLeftDoc defaultSettings rfl (by decide)).1,
   (c3_round_trip_identity sampleLeftDoc defaultSettings rfl (by decide)).2.2.2⟩

/-! ## Claim C5 -/

/-- C5 counterexample: with default settings the first `<item/>` child of
`<root><item/><item/><item/></root>` receives the path `/root/item`, not
`/root/item[1]`, and `/root/item[1]` occurs nowhere in the tree. -/
theorem c5_counterexample_no_index_one :
    ((buildRoot tripleItemDoc defaultSettings).children.map XmlNode.xpath
        ≠ ["/root/item[1]", "/root/item[2]", "/root/item[3]"]) ∧
    "/root/item[1]" ∉ getAllXPaths (buildRoot tripleItemDoc defaultSettings) := by
  constructor <;> decide

/-- C5 (amended): parsing `<root><item/><item/><item/></root>` with
default settings yields the paths `/root/item`, `/root/item[2]`,
`/root/item[3]` — the first same-tag sibling receives no index suffix;
only indices ≥ 2 are bracketed. -/
theorem c5_sibling_indexing :
    ((buildRoot tripleItemDoc defaultSettings).children.map XmlNode.xpath =
      ["/root/item", "/root/item[2]", "/root/item[3]"]) ∧
    getAllXPaths (buildRoot tripleItemDoc defaultSettings) =
      ["/root", "/root/item", "/root/item[2]", "/root/item[3]"] := by
  constructor <;> decide

/-! ## Claim C6 -/

/-- C6 counterexample: with `indexAttribute = "k"` configured and present
on the root, `<root k="2"/>` receives the path `/root[2]`, which carries an
index suffix. -/
theorem c6_counterexample_root_suffix :
    (buildRoot rootOverrideDoc idxSettings).xpath = "/root[2]" ∧
    (buildRoot rootOverrideDoc idxSettings).xpath ≠
      "/" ++ rootOverrideDoc.tagName := by
  constructor <;> decide

/-- C6 (amended): the root's path is `/` + tag — no parent prefix, no index
suffix — whenever the root's resolved index is 1, i.e. unless a configured
`indexAttribute` is present on the root with a value parsing to an integer
≥ 2 (in particular always when `indexAttribute` is unset). -/
theorem c6_root_path (e : DomElem) (settings : XPathSettings)
    (h : calculateIndex e.attributes settings 1 = 1) :
    (buildRoot e settings).xpath = "/" ++ e.tagName := by
  unfold buildRoot
  rw [buildTree_xpath, h]
  show "" ++ "/" ++ stepStr e.tagName 1 = _
  unfold stepStr
  rw [if_neg (by omega)]
  apply string_eq_of_data_eq
  rw [String.data_append, String.data_append, String.data_append]
  rfl

/-- C6, instantiated: `<item/>` under default settings has root path
`/item`. -/
theorem c6_root_path_witness :
    (buildRoot itemElem defaultSettings).xpath = "/item" :=
  c6_root_path itemElem defaultSettings rfl

end XmlCompare
